import Mathlib

/-!
Verification of the AetherionOS memory-management core.

The definitions below are shallow embeddings of the Rust sources under
src/kernel/src/memory (bitmap.rs, frame_allocator.rs, page_table.rs,
paging.rs, mod.rs) and src/kernel/src/allocator (bump.rs, linked_list.rs).
Machine integers (usize, u64, u8) are modelled as Nat, with wrap-around
taken mod 2 ^ 64 exactly where the Rust code performs fixed-width
arithmetic (mask complements, wrapping additions), and checked
subtraction or checked addition modelled with Option.
-/

namespace Aetherion

/-- Number of values of usize / u64 on the target (x86-64). -/
def U64 : Nat := 2 ^ 64

/-- Bitwise complement at u64 width: in Rust, the expression bang x on a
usize. Defined for x already reduced below 2 ^ 64. -/
def not64 (x : Nat) : Nat := (U64 - 1) ^^^ (x % U64)

/-- usize::checked_add: the sum, or none when it does not fit in 64 bits. -/
def checkedAdd (x y : Nat) : Option Nat :=
  if x + y < U64 then some (x + y) else none

/-- usize::checked_sub: the difference, or none on underflow. -/
def checkedSub (x y : Nat) : Option Nat :=
  if y ≤ x then some (x - y) else none

/-- The expression (x + align - 1) AND (bang (align - 1)) shared by
PhysicalAddress::align_up (memory/mod.rs), bump.rs align_up and
linked_list.rs align_up. The addition wraps at u64 width, as the release
build of the Rust code does. -/
def alignUp64 (addr align : Nat) : Nat :=
  ((addr + align - 1) % U64) &&& not64 (align - 1)

/-- The expression x AND (bang (align - 1)) of PhysicalAddress::align_down
and VirtualAddress::align_down (memory/mod.rs). -/
def alignDown64 (addr align : Nat) : Nat :=
  addr &&& not64 (align - 1)

/-- PhysicalAddress::is_aligned / VirtualAddress alignment test. -/
def isAligned (addr align : Nat) : Bool := addr % align = 0

-- ---------------------------------------------------------------------------
-- Arithmetic facts about the u64 masks
-- ---------------------------------------------------------------------------

theorem U64_pos : 0 < U64 := by decide

theorem not64_two_pow_sub_one {k : Nat} (hk : k ≤ 64) :
    not64 (2 ^ k - 1) = U64 - 2 ^ k := by
  have hlt : 2 ^ k - 1 < U64 := by
    have h1 : (2 : Nat) ^ k ≤ 2 ^ 64 := Nat.pow_le_pow_right (by decide) hk
    have h2 : (2 : Nat) ^ k - 1 < 2 ^ k := by
      have := Nat.pos_pow_of_pos k (show 0 < 2 by decide)
      omega
    have : (2 : Nat) ^ k - 1 < 2 ^ 64 := lt_of_lt_of_le h2 h1
    simpa [U64] using this
  have hmod : (2 ^ k - 1) % U64 = 2 ^ k - 1 := Nat.mod_eq_of_lt hlt
  apply Nat.eq_of_testBit_eq
  intro i
  have hU : U64 - 2 ^ k = (2 ^ (64 - k) - 1) <<< k := by
    rw [Nat.shiftLeft_eq, Nat.sub_mul, one_mul, ← pow_add]
    have : 64 - k + k = 64 := by omega
    rw [this]
    rfl
  have hT : ∀ j, (U64 - 1).testBit j = decide (j < 64) := fun j => by
    simpa [U64] using Nat.testBit_two_pow_sub_one 64 j
  rw [not64, hmod, hU, Nat.testBit_xor, Nat.testBit_shiftLeft, hT,
    Nat.testBit_two_pow_sub_one, Nat.testBit_two_pow_sub_one]
  by_cases h1 : i < 64
  · by_cases h2 : i < k
    · simp [h1, h2, Nat.not_le.mpr h2]
    · have hge : i ≥ k := Nat.not_lt.mp h2
      have : i - k < 64 - k := by omega
      simp [h1, h2, hge, this]
  · have hik : ¬ i < k := by omega
    have h3 : ¬ (i - k < 64 - k) := by omega
    by_cases h : i ≥ k <;> simp [h1, hik, h, h3]

/-- Masking with the high mask keeps exactly the bits at positions k and
above: for y below 2 ^ 64, y AND (2 ^ 64 - 2 ^ k) equals y minus its
residue mod 2 ^ k. -/
theorem and_high_mask {y k : Nat} (hy : y < U64) (hk : k ≤ 64) :
    y &&& (U64 - 2 ^ k) = y - y % 2 ^ k := by
  have hsub : y - y % 2 ^ k = (y / 2 ^ k) * 2 ^ k := by
    have h := Nat.div_add_mod y (2 ^ k)
    rw [Nat.sub_eq_iff_eq_add (Nat.mod_le _ _), Nat.mul_comm]
    exact h.symm
  apply Nat.eq_of_testBit_eq
  intro i
  have hU : U64 - 2 ^ k = (2 ^ (64 - k) - 1) <<< k := by
    rw [Nat.shiftLeft_eq, Nat.sub_mul, one_mul, ← pow_add]
    have : 64 - k + k = 64 := by omega
    rw [this]
    rfl
  have hdiv : (y / 2 ^ k) * 2 ^ k = (y >>> k) <<< k := by
    rw [Nat.shiftRight_eq_div_pow, Nat.shiftLeft_eq]
  rw [hsub, hU, hdiv, Nat.testBit_land, Nat.testBit_shiftLeft,
    Nat.testBit_shiftLeft, Nat.testBit_shiftRight, Nat.testBit_two_pow_sub_one]
  by_cases hik : k ≤ i
  · have hki : k + (i - k) = i := by omega
    by_cases h64 : i < 64
    · have : i - k < 64 - k := by omega
      simp [hik, hki, this, ge_iff_le]
    · have hbit : y.testBit i = false := by
        apply Nat.testBit_eq_false_of_lt
        calc y < U64 := hy
        _ = 2 ^ 64 := rfl
        _ ≤ 2 ^ i := Nat.pow_le_pow_right (by decide) (by omega)
      simp [hik, hki, hbit]
  · simp [hik, ge_iff_le]

theorem alignDown64_pow {x k : Nat} (hx : x < U64) (hk : k ≤ 64) :
    alignDown64 x (2 ^ k) = x - x % 2 ^ k := by
  rw [alignDown64, not64_two_pow_sub_one hk]
  exact and_high_mask hx hk

theorem alignUp64_pow {x k : Nat} (hk : k ≤ 64)
    (hno : x + 2 ^ k - 1 < U64) :
    alignUp64 x (2 ^ k) = (x + 2 ^ k - 1) - (x + 2 ^ k - 1) % 2 ^ k := by
  rw [alignUp64, not64_two_pow_sub_one hk, Nat.mod_eq_of_lt hno]
  exact and_high_mask hno hk

theorem alignUp64_ge {x k : Nat} (hk : k ≤ 64)
    (hno : x + 2 ^ k - 1 < U64) : x ≤ alignUp64 x (2 ^ k) := by
  rw [alignUp64_pow hk hno]
  have hklt : (x + 2 ^ k - 1) % 2 ^ k < 2 ^ k := Nat.mod_lt _ (Nat.pos_pow_of_pos k (by decide))
  have hp : 0 < 2 ^ k := Nat.pos_pow_of_pos k (by decide)
  omega

-- ---------------------------------------------------------------------------
-- Bitmap (src/kernel/src/memory/bitmap.rs)
-- ---------------------------------------------------------------------------

/-- State of bitmap.rs Bitmap: the backing byte buffer and the number of
tracked bits. Each list element is one u8. -/
structure Bitmap where
  data : List Nat
  size : Nat
deriving DecidableEq

namespace Bitmap

/-- Bitmap::new: zeroes every byte of the supplied buffer. -/
def new (buffer : List Nat) (size : Nat) : Bitmap :=
  ⟨buffer.map (fun _ => 0), size⟩

/-- Bitmap::set: bounds-checked, silently ignored when out of range. -/
def set (b : Bitmap) (index : Nat) : Bitmap :=
  if index < b.size then
    ⟨b.data.set (index / 8)
      ((b.data.getD (index / 8) 0) ||| (1 <<< (index % 8))), b.size⟩
  else b

/-- Bitmap::clear: the AND with the u8 complement of the single-bit mask. -/
def clear (b : Bitmap) (index : Nat) : Bitmap :=
  if index < b.size then
    ⟨b.data.set (index / 8)
      ((b.data.getD (index / 8) 0) &&& (255 ^^^ (1 <<< (index % 8)))), b.size⟩
  else b

/-- Bitmap::is_set: false for out-of-range indices. -/
def isSet (b : Bitmap) (index : Nat) : Bool :=
  if b.size ≤ index then false
  else ((b.data.getD (index / 8) 0) &&& (1 <<< (index % 8))) != 0

/-- The inner bit loop of Bitmap::find_first_clear over one byte:
returns some r when the Rust loop returns early with r, none when the
loop falls through to the next byte. -/
def scanBitsGo (b : Bitmap) (byteIdx : Nat) : Nat → Nat → Option (Option Nat)
  | 0, _ => none
  | fuel + 1, bit =>
    if b.size ≤ byteIdx * 8 + bit then some none
    else if b.isSet (byteIdx * 8 + bit) = false then some (some (byteIdx * 8 + bit))
    else scanBitsGo b byteIdx fuel (bit + 1)

def scanBits (b : Bitmap) (byteIdx bit : Nat) : Option (Option Nat) :=
  scanBitsGo b byteIdx (8 - bit) bit

/-- The outer byte loop of Bitmap::find_first_clear: bytes equal to 0xFF
are skipped wholesale. -/
def scanBytes (b : Bitmap) : List Nat → Nat → Option Nat
  | [], _ => none
  | byte :: rest, byteIdx =>
    if byte ≠ 255 then
      match scanBits b byteIdx 0 with
      | some r => r
      | none => scanBytes b rest (byteIdx + 1)
    else scanBytes b rest (byteIdx + 1)

/-- Bitmap::find_first_clear. -/
def findFirstClear (b : Bitmap) : Option Nat :=
  scanBytes b b.data 0

/-- The scanning loop of Bitmap::find_consecutive_clear, with the
remaining iteration count (b.size - idx at every call) as explicit
fuel. -/
def fccLoop (b : Bitmap) (count : Nat) : Nat → Nat → Nat → Nat → Option Nat
  | 0, _, _, _ => none
  | fuel + 1, idx, consecutive, startIdx =>
    if b.isSet idx = false then
      if consecutive + 1 = count then
        some (if consecutive = 0 then idx else startIdx)
      else
        fccLoop b count fuel (idx + 1) (consecutive + 1)
          (if consecutive = 0 then idx else startIdx)
    else fccLoop b count fuel (idx + 1) 0 startIdx

/-- Bitmap::find_consecutive_clear. -/
def findConsecutiveClear (b : Bitmap) (count : Nat) : Option Nat :=
  if count = 0 then none else fccLoop b count b.size 0 0 0

/-- Bitmap::count_free: the number of indices below size whose bit is
clear. -/
def countFree (b : Bitmap) : Nat :=
  (List.range b.size).countP (fun i => !(b.isSet i))

/-- Bitmap::count_allocated. -/
def countAllocated (b : Bitmap) : Nat :=
  b.size - b.countFree

end Bitmap

-- Bit-level bridges between the mask arithmetic of the code and testBit.

theorem and_one_shift_ne (x t : Nat) :
    ((x &&& (1 <<< t)) != 0) = x.testBit t := by
  rw [Nat.one_shiftLeft, Nat.and_two_pow]
  cases h : x.testBit t <;> simp [h, Nat.pos_pow_of_pos t (by decide : 0 < 2)]

theorem testBit_255 (t : Nat) : (255 : Nat).testBit t = decide (t < 8) := by
  have : (255 : Nat) = 2 ^ 8 - 1 := by decide
  rw [this, Nat.testBit_two_pow_sub_one]

/-- Effect of Bitmap::set on Bitmap::is_set: only the written index
changes, provided the write lands inside the buffer. -/
theorem Bitmap.isSet_set (b : Bitmap) (i j : Nat) (hi : i < b.size)
    (hlen : i / 8 < b.data.length) :
    (b.set i).isSet j = if j = i then true else b.isSet j := by
  unfold Bitmap.set Bitmap.isSet
  simp only [hi, if_true]
  by_cases hj : b.size ≤ j
  · have hji : j ≠ i := by omega
    simp [hj, hji]
  · simp only [hj, if_false]
    rw [List.getD_eq_getElem?_getD, List.getD_eq_getElem?_getD]
    by_cases hbyte : i / 8 = j / 8
    · rw [← hbyte, List.getElem?_set_self hlen]
      have hg : b.data[i / 8]? = some (b.data.getD (i / 8) 0) := by
        rw [List.getD_eq_getElem?_getD]
        rcases h : b.data[i / 8]? with _ | v
        · rw [List.getElem?_eq_none_iff] at h
          omega
        · rfl
      simp only [Option.getD_some]
      by_cases hij : j = i
      · subst hij
        rw [and_one_shift_ne, Nat.testBit_lor, Nat.one_shiftLeft,
          Nat.testBit_two_pow_self]
        simp
      · have hbits : j % 8 ≠ i % 8 := by
          have h1 := Nat.div_add_mod i 8
          have h2 := Nat.div_add_mod j 8
          intro hcontra
          omega
        rw [and_one_shift_ne, and_one_shift_ne, Nat.testBit_lor,
          Nat.one_shiftLeft, Nat.testBit_two_pow_of_ne (by omega)]
        have : b.data.getD (j / 8) 0 = b.data.getD (i / 8) 0 := by rw [hbyte]
        rw [List.getD_eq_getElem?_getD] at this
        simp [hij, this]
    · have hij : j ≠ i := fun h => hbyte (by rw [h])
      rw [List.getElem?_set_ne hbyte]
      simp [hij]

/-- Effect of Bitmap::clear on Bitmap::is_set: the cleared index becomes
clear, every other index keeps its value. -/
theorem Bitmap.isSet_clear (b : Bitmap) (i j : Nat) (hi : i < b.size)
    (hlen : i / 8 < b.data.length) :
    (b.clear i).isSet j = if j = i then false else b.isSet j := by
  unfold Bitmap.clear Bitmap.isSet
  simp only [hi, if_true]
  by_cases hj : b.size ≤ j
  · have hji : j ≠ i := by omega
    simp [hj, hji]
  · simp only [hj, if_false]
    rw [List.getD_eq_getElem?_getD, List.getD_eq_getElem?_getD]
    by_cases hbyte : i / 8 = j / 8
    · rw [← hbyte, List.getElem?_set_self hlen]
      simp only [Option.getD_some]
      have hjm : j % 8 < 8 := Nat.mod_lt _ (by decide)
      by_cases hij : j = i
      · subst hij
        rw [and_one_shift_ne, Nat.testBit_land, Nat.testBit_xor,
          Nat.one_shiftLeft, Nat.testBit_two_pow_self, testBit_255]
        simp [hjm]
      · have hbits : j % 8 ≠ i % 8 := by
          have h1 := Nat.div_add_mod i 8
          have h2 := Nat.div_add_mod j 8
          intro hcontra
          omega
        rw [and_one_shift_ne, and_one_shift_ne, Nat.testBit_land,
          Nat.testBit_xor, Nat.one_shiftLeft,
          Nat.testBit_two_pow_of_ne (by omega), testBit_255]
        have : b.data.getD (j / 8) 0 = b.data.getD (i / 8) 0 := by rw [hbyte]
        rw [List.getD_eq_getElem?_getD] at this
        simp [hij, this, hjm]
    · have hij : j ≠ i := fun h => hbyte (by rw [h])
      rw [List.getElem?_set_ne hbyte]
      simp [hij]

-- Characterization of find_first_clear.

theorem Bitmap.scanBits_spec (b : Bitmap) (byteIdx : Nat) :
    ∀ fuel bit, fuel + bit = 8 →
      (Bitmap.scanBitsGo b byteIdx fuel bit = none →
        ∀ t, bit ≤ t → t < 8 →
          byteIdx * 8 + t < b.size ∧ b.isSet (byteIdx * 8 + t) = true) ∧
      (∀ j, Bitmap.scanBitsGo b byteIdx fuel bit = some (some j) →
        ∃ t, bit ≤ t ∧ t < 8 ∧ j = byteIdx * 8 + t ∧ j < b.size ∧
          b.isSet j = false ∧
          ∀ u, bit ≤ u → u < t → b.isSet (byteIdx * 8 + u) = true) ∧
      (Bitmap.scanBitsGo b byteIdx fuel bit = some none →
        ∃ t, bit ≤ t ∧ t < 8 ∧ b.size ≤ byteIdx * 8 + t ∧
          ∀ u, bit ≤ u → u < t →
            byteIdx * 8 + u < b.size ∧ b.isSet (byteIdx * 8 + u) = true) := by
  intro fuel
  induction fuel with
  | zero =>
    intro bit hfuel
    refine ⟨?_, ?_, ?_⟩
    · intro _ t hbt ht8
      omega
    · intro j h
      simp [Bitmap.scanBitsGo] at h
    · intro h
      simp [Bitmap.scanBitsGo] at h
  | succ n ih =>
    intro bit hfuel
    have h8 : bit < 8 := by omega
    · rw [Bitmap.scanBitsGo]
      by_cases hrange : b.size ≤ byteIdx * 8 + bit
      · simp only [hrange, if_true]
        refine ⟨?_, ?_, ?_⟩
        · intro h
          exact absurd h (by simp)
        · intro j h
          simp at h
        · intro _
          exact ⟨bit, Nat.le_refl bit, h8, hrange, fun u h1 h2 => by omega⟩
      · simp only [hrange, if_false]
        by_cases hclear : b.isSet (byteIdx * 8 + bit) = false
        · simp only [hclear, if_true]
          refine ⟨?_, ?_, ?_⟩
          · intro h
            exact absurd h (by simp)
          · intro j h
            have hj : j = byteIdx * 8 + bit := by
              have h1 := Option.some.inj h
              exact (Option.some.inj h1).symm
            refine ⟨bit, Nat.le_refl bit, h8, hj, by omega, ?_,
              fun u h1 h2 => by omega⟩
            rw [hj]
            exact hclear
          · intro h
            simp at h
        · simp only [hclear, if_false]
          have hset : b.isSet (byteIdx * 8 + bit) = true := by
            cases h : b.isSet (byteIdx * 8 + bit)
            · exact absurd h hclear
            · rfl
          have ihb := ih (bit + 1) (by omega)
          refine ⟨?_, ?_, ?_⟩
          · intro h t hbt ht8
            by_cases ht : t = bit
            · subst ht
              exact ⟨by omega, hset⟩
            · exact ihb.1 h t (by omega) ht8
          · intro j h
            obtain ⟨t, ht1, ht2, ht3, ht4, ht5, ht6⟩ := ihb.2.1 j h
            refine ⟨t, by omega, ht2, ht3, ht4, ht5, ?_⟩
            intro u h1 h2
            by_cases hu : u = bit
            · subst hu
              exact hset
            · exact ht6 u (by omega) h2
          · intro h
            obtain ⟨t, ht1, ht2, ht3, ht4⟩ := ihb.2.2 h
            refine ⟨t, by omega, ht2, ht3, ?_⟩
            intro u h1 h2
            by_cases hu : u = bit
            · subst hu
              exact ⟨by omega, hset⟩
            · exact ht4 u (by omega) h2

theorem Bitmap.scanBytes_spec (b : Bitmap) (hwf : b.size ≤ 8 * b.data.length) :
    ∀ rest byteIdx, rest = b.data.drop byteIdx →
      (∀ i, i < byteIdx * 8 → i < b.size → b.isSet i = true) →
      (Bitmap.scanBytes b rest byteIdx = none →
        ∀ i, i < b.size → b.isSet i = true) ∧
      (∀ j, Bitmap.scanBytes b rest byteIdx = some j →
        j < b.size ∧ b.isSet j = false ∧ ∀ i, i < j → b.isSet i = true) := by
  intro rest
  induction rest with
  | nil =>
    intro byteIdx hrest hprev
    have hlen : b.data.length ≤ byteIdx := by
      rw [eq_comm, List.drop_eq_nil_iff] at hrest
      exact hrest
    constructor
    · intro _ i hi
      exact hprev i (by omega) hi
    · intro j h
      simp [Bitmap.scanBytes] at h
  | cons byte rest ih =>
    intro byteIdx hrest hprev
    have hbyteq : b.data.getD byteIdx 0 = byte := by
      have h0 : (b.data.drop byteIdx)[0]? = b.data[byteIdx]? := by
        simp [List.getElem?_drop]
      rw [← hrest] at h0
      simp at h0
      rw [List.getD_eq_getElem?_getD, ← h0]
      rfl
    have hrest' : rest = b.data.drop (byteIdx + 1) := by
      have h1 : List.drop 1 (b.data.drop byteIdx) = b.data.drop (byteIdx + 1) := by
        rw [List.drop_drop]
      rw [← hrest] at h1
      simp at h1
      exact h1
    have hstep : (∀ t, t < 8 → byteIdx * 8 + t < b.size →
          b.isSet (byteIdx * 8 + t) = true) →
        ∀ i, i < (byteIdx + 1) * 8 → i < b.size → b.isSet i = true := by
      intro hbits i hi hisize
      by_cases hlow : i < byteIdx * 8
      · exact hprev i hlow hisize
      · have ht : i = byteIdx * 8 + (i - byteIdx * 8) := by omega
        have ht8 : i - byteIdx * 8 < 8 := by omega
        rw [ht]
        exact hbits _ ht8 (by omega)
    rw [Bitmap.scanBytes]
    by_cases h255 : byte = 255
    · simp only [h255, ne_eq, not_true_eq_false, if_false]
      have hbits : ∀ t, t < 8 → byteIdx * 8 + t < b.size →
          b.isSet (byteIdx * 8 + t) = true := by
        intro t ht8 htsize
        unfold Bitmap.isSet
        have hdiv : (byteIdx * 8 + t) / 8 = byteIdx := by omega
        have hmod : (byteIdx * 8 + t) % 8 = t := by omega
        simp only [Nat.not_le.mpr htsize, if_neg (by omega : ¬ b.size ≤ byteIdx * 8 + t)]
        rw [hdiv, hmod, hbyteq, h255, and_one_shift_ne, testBit_255]
        simp [ht8]
      exact ih (byteIdx + 1) hrest' (hstep hbits)
    · simp only [ne_eq, h255, not_false_eq_true, if_true]
      rcases hscan : Bitmap.scanBits b byteIdx 0 with _ | r
      · have hbits : ∀ t, t < 8 → byteIdx * 8 + t < b.size →
            b.isSet (byteIdx * 8 + t) = true := by
          intro t ht8 _
          exact ((Bitmap.scanBits_spec b byteIdx 8 0 (by omega)).1 hscan t
            (by omega) ht8).2
        exact ih (byteIdx + 1) hrest' (hstep hbits)
      · rcases r with _ | j
        · have hspec := (Bitmap.scanBits_spec b byteIdx 8 0 (by omega)).2.2 hscan
          obtain ⟨t, _, ht8, htsize, hall⟩ := hspec
          constructor
          · intro _ i hi
            by_cases hlow : i < byteIdx * 8
            · exact hprev i hlow hi
            · have hu : i = byteIdx * 8 + (i - byteIdx * 8) := by omega
              have hut : i - byteIdx * 8 < t := by omega
              rw [hu]
              exact (hall _ (by omega) hut).2
          · intro j h
            simp at h
        · have hspec := (Bitmap.scanBits_spec b byteIdx 8 0 (by omega)).2.1 j hscan
          obtain ⟨t, _, ht8, hjidx, hjsize, hjclear, hall⟩ := hspec
          constructor
          · intro h
            simp at h
          · intro j' hj'
            have hjj : j' = j := by
              have := Option.some.inj hj'
              exact this.symm
            subst hjj
            refine ⟨hjsize, hjclear, ?_⟩
            intro i hij
            by_cases hlow : i < byteIdx * 8
            · exact hprev i hlow (by omega)
            · have hu : i = byteIdx * 8 + (i - byteIdx * 8) := by omega
              have hut : i - byteIdx * 8 < t := by omega
              rw [hu]
              exact hall _ (by omega) hut

/-- Full characterization of find_first_clear on buffers that cover all
tracked bits: none exactly when every tracked index is set, and a some
result is the least clear tracked index. -/
theorem Bitmap.findFirstClear_spec (b : Bitmap) (hwf : b.size ≤ 8 * b.data.length) :
    (b.findFirstClear = none ↔ ∀ i, i < b.size → b.isSet i = true) ∧
    (∀ j, b.findFirstClear = some j →
      j < b.size ∧ b.isSet j = false ∧ ∀ i, i < j → b.isSet i = true) := by
  have h := Bitmap.scanBytes_spec b hwf b.data 0 (by simp)
    (fun i h1 _ => absurd h1 (by omega))
  unfold Bitmap.findFirstClear
  refine ⟨⟨fun hnone i hi => h.1 hnone i hi, fun hall => ?_⟩, h.2⟩
  rcases hff : Bitmap.scanBytes b b.data 0 with _ | j
  · rfl
  · obtain ⟨hj1, hj2, _⟩ := h.2 j hff
    rw [hall j hj1] at hj2
    simp at hj2

theorem Bitmap.fccLoop_spec (b : Bitmap) (count : Nat) :
    ∀ fuel idx consecutive startIdx, fuel + idx = b.size →
      consecutive < count →
      (consecutive = 0 ∨ (startIdx + consecutive = idx ∧
        ∀ t, t < consecutive → b.isSet (startIdx + t) = false)) →
      ∀ s, Bitmap.fccLoop b count fuel idx consecutive startIdx = some s →
        s + count ≤ b.size ∧ ∀ t, t < count → b.isSet (s + t) = false := by
  intro fuel
  induction fuel with
  | zero =>
    intro idx consecutive startIdx hfuel _ _ s hs
    simp [Bitmap.fccLoop] at hs
  | succ n ih =>
    intro idx consecutive startIdx hfuel hcount hinv s hs
    have hidx : idx < b.size := by omega
    simp only [Bitmap.fccLoop] at hs
    · by_cases hclear : b.isSet idx = false
      · simp only [hclear, if_true] at hs
        by_cases hdone : consecutive + 1 = count
        · simp only [hdone, if_true] at hs
          have hseq : s = if consecutive = 0 then idx else startIdx :=
            (Option.some.inj hs).symm
          rcases hinv with hzero | ⟨hpos1, hpos2⟩
          · subst hzero
            simp at hseq
            subst hseq
            refine ⟨by omega, ?_⟩
            intro t ht
            have : t = 0 := by omega
            subst this
            simpa using hclear
          · have hcz : consecutive ≠ 0 ∨ consecutive = 0 := by omega
            by_cases hc0 : consecutive = 0
            · subst hc0
              simp at hseq
              subst hseq
              refine ⟨by omega, ?_⟩
              intro t ht
              have : t = 0 := by omega
              subst this
              simpa using hclear
            · simp only [hc0, if_false] at hseq
              subst hseq
              refine ⟨by omega, ?_⟩
              intro t ht
              by_cases htc : t < consecutive
              · exact hpos2 t htc
              · have : t = consecutive := by omega
                subst this
                rw [hpos1]
                exact hclear
        · simp only [hdone, if_false] at hs
          have hcount' : consecutive + 1 < count := by omega
          have hinv' : consecutive + 1 = 0 ∨
              ((if consecutive = 0 then idx else startIdx) + (consecutive + 1) = idx + 1 ∧
                ∀ t, t < consecutive + 1 →
                  b.isSet ((if consecutive = 0 then idx else startIdx) + t) = false) := by
            right
            by_cases hc0 : consecutive = 0
            · subst hc0
              rw [if_pos rfl]
              refine ⟨by omega, ?_⟩
              intro t ht
              have : t = 0 := by omega
              subst this
              simpa using hclear
            · rw [if_neg hc0]
              rcases hinv with hzero | ⟨hpos1, hpos2⟩
              · exact absurd hzero hc0
              · refine ⟨by omega, ?_⟩
                intro t ht
                by_cases htc : t < consecutive
                · exact hpos2 t htc
                · have : t = consecutive := by omega
                  subst this
                  rw [hpos1]
                  exact hclear
          exact ih (idx + 1) (consecutive + 1) _ (by omega) hcount' hinv' s hs
      · simp only [hclear, if_false] at hs
        exact ih (idx + 1) 0 startIdx (by omega) (by omega) (Or.inl rfl) s hs

/-- Characterization of find_consecutive_clear: a some result names a run
of count clear bits that fits below size. -/
theorem Bitmap.findConsecutiveClear_spec (b : Bitmap) (count s : Nat)
    (hs : b.findConsecutiveClear count = some s) :
    0 < count ∧ s + count ≤ b.size ∧ ∀ t, t < count → b.isSet (s + t) = false := by
  unfold Bitmap.findConsecutiveClear at hs
  by_cases hc : count = 0
  · simp [hc] at hs
  · simp only [hc, if_false] at hs
    have := Bitmap.fccLoop_spec b count b.size 0 0 0 (by omega) (by omega)
      (Or.inl rfl) s hs
    exact ⟨by omega, this⟩

-- Counting lemmas for the allocator counter invariant.

theorem countP_range_update (f g : Nat → Bool) :
    ∀ n i, i < n → (∀ j, j < n → j ≠ i → f j = g j) → f i = true → g i = false →
    (List.range n).countP f = (List.range n).countP g + 1 := by
  intro n
  induction n with
  | zero =>
    intro i hi _ _ _
    omega
  | succ m ihm =>
    intro i hi hne hfi hgi
    rw [List.range_succ, List.countP_append, List.countP_append]
    by_cases him : i = m
    · subst him
      have hagree : (List.range i).countP f = (List.range i).countP g := by
        apply List.countP_congr
        intro a ha
        have : a < i := List.mem_range.mp ha
        rw [hne a (by omega) (by omega)]
      rw [hagree]
      simp [List.countP_cons, hfi, hgi]
    · have hi' : i < m := by omega
      rw [ihm i hi' (fun j hj hji => hne j (by omega) hji) hfi hgi]
      have hfm : f m = g m := hne m (by omega) (by omega)
      simp [List.countP_cons, hfm]
      omega

theorem Bitmap.countFree_le (b : Bitmap) : b.countFree ≤ b.size := by
  calc b.countFree ≤ (List.range b.size).length := List.countP_le_length _
  _ = b.size := List.length_range b.size

theorem Bitmap.set_size (b : Bitmap) (i : Nat) : (b.set i).size = b.size := by
  unfold Bitmap.set
  by_cases h : i < b.size <;> simp [h]

/-- Bitmap::set on a clear in-range index removes exactly one free slot. -/
theorem Bitmap.countFree_set (b : Bitmap) (i : Nat) (hi : i < b.size)
    (hlen : i / 8 < b.data.length) (hclear : b.isSet i = false) :
    (b.set i).countFree + 1 = b.countFree := by
  have h1 : ∀ j, j < b.size → j ≠ i → (!(b.isSet j)) = (!((b.set i).isSet j)) := by
    intro j _ hji
    rw [Bitmap.isSet_set b i j hi hlen]
    simp [hji]
  have h2 : (!(b.isSet i)) = true := by simp [hclear]
  have h3 : (!((b.set i).isSet i)) = false := by
    rw [Bitmap.isSet_set b i i hi hlen]
    simp
  have key := countP_range_update (fun j => !(b.isSet j))
    (fun j => !((b.set i).isSet j)) b.size i hi h1 h2 h3
  unfold Bitmap.countFree
  rw [Bitmap.set_size]
  omega

theorem Bitmap.clear_size (b : Bitmap) (i : Nat) : (b.clear i).size = b.size := by
  unfold Bitmap.clear
  by_cases h : i < b.size <;> simp [h]

/-- Bitmap::clear on a set in-range index adds exactly one free slot. -/
theorem Bitmap.countFree_clear (b : Bitmap) (i : Nat) (hi : i < b.size)
    (hlen : i / 8 < b.data.length) (hset : b.isSet i = true) :
    (b.clear i).countFree = b.countFree + 1 := by
  have h1 : ∀ j, j < b.size → j ≠ i → (!((b.clear i).isSet j)) = (!(b.isSet j)) := by
    intro j _ hji
    rw [Bitmap.isSet_clear b i j hi hlen]
    simp [hji]
  have h2 : (!((b.clear i).isSet i)) = true := by
    rw [Bitmap.isSet_clear b i i hi hlen]
    simp
  have h3 : (!(b.isSet i)) = false := by simp [hset]
  have key := countP_range_update (fun j => !((b.clear i).isSet j))
    (fun j => !(b.isSet j)) b.size i hi h1 h2 h3
  unfold Bitmap.countFree
  rw [Bitmap.clear_size]
  omega

theorem Bitmap.set_data_length (b : Bitmap) (i : Nat) :
    (b.set i).data.length = b.data.length := by
  unfold Bitmap.set
  by_cases h : i < b.size <;> simp [h]

theorem Bitmap.clear_data_length (b : Bitmap) (i : Nat) :
    (b.clear i).data.length = b.data.length := by
  unfold Bitmap.clear
  by_cases h : i < b.size <;> simp [h]

-- ---------------------------------------------------------------------------
-- FrameAllocator (src/kernel/src/memory/frame_allocator.rs)
-- ---------------------------------------------------------------------------

/-- PAGE_SIZE / FRAME_SIZE from memory/mod.rs. -/
def FRAME_SIZE : Nat := 4096

/-- The loop in FrameAllocator::allocate_frames that marks the run of
frames: for idx in start_idx..(start_idx + count). -/
def Bitmap.setRange (b : Bitmap) (start count : Nat) : Bitmap :=
  match count with
  | 0 => b
  | c + 1 => Bitmap.setRange (b.set start) (start + 1) c

/-- State of frame_allocator.rs FrameAllocator. -/
structure FrameAllocator where
  bitmap : Bitmap
  start_address : Nat
  total_frames : Nat
  allocated_frames : Nat
deriving DecidableEq

namespace FrameAllocator

/-- FrameAllocator::new. -/
def new (start_addr memory_size : Nat) (bitmap_buffer : List Nat) : FrameAllocator :=
  ⟨Bitmap.new bitmap_buffer (memory_size / FRAME_SIZE), start_addr,
    memory_size / FRAME_SIZE, 0⟩

/-- FrameAllocator::allocate_frame. -/
def allocate_frame (fa : FrameAllocator) : Option (Nat × FrameAllocator) :=
  match fa.bitmap.findFirstClear with
  | some frame_idx =>
    some (fa.start_address + frame_idx * FRAME_SIZE,
      ⟨fa.bitmap.set frame_idx, fa.start_address, fa.total_frames,
        fa.allocated_frames + 1⟩)
  | none => none

/-- FrameAllocator::allocate_frames. -/
def allocate_frames (fa : FrameAllocator) (count : Nat) : Option (Nat × FrameAllocator) :=
  if count = 0 then none
  else
    match fa.bitmap.findConsecutiveClear count with
    | some start_idx =>
      some (fa.start_address + start_idx * FRAME_SIZE,
        ⟨fa.bitmap.setRange start_idx count, fa.start_address, fa.total_frames,
          fa.allocated_frames + count⟩)
    | none => none

/-- FrameAllocator::deallocate_frame. The unchecked usize subtraction
aligned - start_address is modelled with checkedSub: none is the Rust
panic on underflow. The counter decrement only runs on a set in-range
bit, where the tracked invariant keeps the counter positive. -/
def deallocate_frame (fa : FrameAllocator) (addr : Nat) : Option FrameAllocator :=
  match checkedSub (alignDown64 addr FRAME_SIZE) fa.start_address with
  | none => none
  | some diff =>
    if diff / FRAME_SIZE < fa.total_frames ∧
        fa.bitmap.isSet (diff / FRAME_SIZE) = true then
      some ⟨fa.bitmap.clear (diff / FRAME_SIZE), fa.start_address,
        fa.total_frames, fa.allocated_frames - 1⟩
    else some fa

/-- The per-index loop of FrameAllocator::deallocate_frames, acting on
the bitmap and the allocated_frames counter. -/
def deallocLoop (bm : Bitmap) (allocated total idx count : Nat) : Bitmap × Nat :=
  match count with
  | 0 => (bm, allocated)
  | c + 1 =>
    if idx < total ∧ bm.isSet idx = true then
      deallocLoop (bm.clear idx) (allocated - 1) total (idx + 1) c
    else
      deallocLoop bm allocated total (idx + 1) c

/-- FrameAllocator::deallocate_frames. -/
def deallocate_frames (fa : FrameAllocator) (addr count : Nat) : Option FrameAllocator :=
  match checkedSub (alignDown64 addr FRAME_SIZE) fa.start_address with
  | none => none
  | some diff =>
    some ⟨(deallocLoop fa.bitmap fa.allocated_frames fa.total_frames
        (diff / FRAME_SIZE) count).1,
      fa.start_address, fa.total_frames,
      (deallocLoop fa.bitmap fa.allocated_frames fa.total_frames
        (diff / FRAME_SIZE) count).2⟩

/-- FrameAllocator::free_frames. -/
def free_frames (fa : FrameAllocator) : Nat := fa.total_frames - fa.allocated_frames

end FrameAllocator

/-- States reachable from FrameAllocator::new (with an adequate bitmap
buffer, as required by the data model) under the four allocation and
deallocation operations, deallocations restricted to addresses at or
above start_address as in the claim. -/
inductive FAReachable : FrameAllocator → Prop where
  | construct (start_addr memory_size : Nat) (buffer : List Nat)
      (hbuf : memory_size / FRAME_SIZE ≤ 8 * buffer.length) :
      FAReachable (FrameAllocator.new start_addr memory_size buffer)
  | alloc_one (fa : FrameAllocator) (addr : Nat) (fa' : FrameAllocator) :
      FAReachable fa → fa.allocate_frame = some (addr, fa') → FAReachable fa'
  | alloc_many (fa : FrameAllocator) (count addr : Nat) (fa' : FrameAllocator) :
      FAReachable fa → fa.allocate_frames count = some (addr, fa') → FAReachable fa'
  | dealloc_one (fa : FrameAllocator) (addr : Nat) (fa' : FrameAllocator) :
      FAReachable fa → fa.start_address ≤ addr →
      fa.deallocate_frame addr = some fa' → FAReachable fa'
  | dealloc_many (fa : FrameAllocator) (addr count : Nat) (fa' : FrameAllocator) :
      FAReachable fa → fa.start_address ≤ addr →
      fa.deallocate_frames addr count = some fa' → FAReachable fa'

/-- The structural well-formedness the frame allocator maintains. -/
def FAInv (fa : FrameAllocator) : Prop :=
  fa.allocated_frames = fa.bitmap.countAllocated ∧
  fa.bitmap.size = fa.total_frames ∧
  fa.bitmap.size ≤ 8 * fa.bitmap.data.length

theorem Bitmap.countFree_new (buffer : List Nat) (size : Nat) :
    (Bitmap.new buffer size).countFree = size := by
  unfold Bitmap.countFree
  have hall : ∀ a ∈ List.range size, (!(Bitmap.new buffer size).isSet a) = true := by
    intro a _
    unfold Bitmap.isSet Bitmap.new
    by_cases h : size ≤ a
    · simp [h]
    · simp only [h, if_false]
      rcases hget : (buffer.map (fun _ => 0 : Nat → Nat))[a / 8]? with _ | v
      · simp [List.getD_eq_getElem?_getD, hget]
      · have hv : v = 0 := by
          rcases List.getElem?_eq_some_iff.mp hget with ⟨hlt, heq⟩
          simp at heq
          omega
        simp [List.getD_eq_getElem?_getD, hget, hv]
  calc (List.range size).countP (fun i => !(Bitmap.new buffer size).isSet i)
      = (List.range size).length := List.countP_eq_length.mpr hall
  _ = size := List.length_range size

theorem setRange_spec (count : Nat) :
    ∀ (b : Bitmap) (start : Nat), start + count ≤ b.size → b.size ≤ 8 * b.data.length →
      (∀ t, t < count → b.isSet (start + t) = false) →
      (b.setRange start count).size = b.size ∧
      (b.setRange start count).data.length = b.data.length ∧
      (b.setRange start count).countFree + count = b.countFree := by
  induction count with
  | zero =>
    intro b start _ _ _
    exact ⟨rfl, rfl, rfl⟩
  | succ c ihc =>
    intro b start hfit hwf hclear
    have hstart : start < b.size := by omega
    have hlen : start / 8 < b.data.length := by
      have : start < b.data.length * 8 := by omega
      omega
    have hclear0 : b.isSet start = false := by
      have := hclear 0 (by omega)
      simpa using this
    have hcf := Bitmap.countFree_set b start hstart hlen hclear0
    have hs := Bitmap.set_size b start
    have hl := Bitmap.set_data_length b start
    have hrest : ∀ t, t < c → (b.set start).isSet (start + 1 + t) = false := by
      intro t ht
      rw [Bitmap.isSet_set b start (start + 1 + t) hstart hlen]
      have hne : start + 1 + t ≠ start := by omega
      simp only [hne, if_false]
      have := hclear (t + 1) (by omega)
      have harith : start + (t + 1) = start + 1 + t := by omega
      rw [harith] at this
      exact this
    have ih := ihc (b.set start) (start + 1) (by omega) (by omega) hrest
    unfold Bitmap.setRange
    exact ⟨by rw [ih.1, hs], by rw [ih.2.1, hl], by omega⟩

theorem deallocLoop_spec (count : Nat) :
    ∀ (bm : Bitmap) (allocated idx : Nat), allocated = bm.countAllocated →
      bm.size ≤ 8 * bm.data.length →
      (FrameAllocator.deallocLoop bm allocated bm.size idx count).2
        = (FrameAllocator.deallocLoop bm allocated bm.size idx count).1.countAllocated ∧
      (FrameAllocator.deallocLoop bm allocated bm.size idx count).1.size = bm.size ∧
      (FrameAllocator.deallocLoop bm allocated bm.size idx count).1.data.length = bm.data.length := by
  induction count with
  | zero =>
    intro bm allocated idx hinv hwf
    exact ⟨hinv, rfl, rfl⟩
  | succ c ihc =>
    intro bm allocated idx hinv hwf
    unfold FrameAllocator.deallocLoop
    by_cases hcond : idx < bm.size ∧ bm.isSet idx = true
    · simp only [hcond, and_self, if_true]
      obtain ⟨hidx, hset⟩ := hcond
      have hlen : idx / 8 < bm.data.length := by
        have : idx < bm.data.length * 8 := by omega
        omega
      have hcf := Bitmap.countFree_clear bm idx hidx hlen hset
      have hle := Bitmap.countFree_le (bm.clear idx)
      have hle2 := Bitmap.countFree_le bm
      have hs := Bitmap.clear_size bm idx
      have hl := Bitmap.clear_data_length bm idx
      have hinv' : allocated - 1 = (bm.clear idx).countAllocated := by
        unfold Bitmap.countAllocated at hinv ⊢
        rw [hs]
        rw [hs] at hle
        omega
      have ih := ihc (bm.clear idx) (allocated - 1) (idx + 1) hinv' (by omega)
      rw [hs] at ih
      exact ⟨ih.1, by rw [ih.2.1], by rw [ih.2.2, hl]⟩
    · simp only [hcond, if_false]
      exact ihc bm allocated (idx + 1) hinv hwf

/-- Every reachable frame-allocator state satisfies the invariant. -/
theorem FAReachable_inv (fa : FrameAllocator) (h : FAReachable fa) : FAInv fa := by
  induction h with
  | construct start_addr memory_size buffer hbuf =>
    refine ⟨?_, rfl, by simpa [FrameAllocator.new, Bitmap.new] using hbuf⟩
    unfold FrameAllocator.new Bitmap.countAllocated
    rw [Bitmap.countFree_new]
    simp [Bitmap.new]
  | alloc_one fa addr fa' _ hstep ih =>
    obtain ⟨hcnt, hsize, hwf⟩ := ih
    unfold FrameAllocator.allocate_frame at hstep
    rcases hff : fa.bitmap.findFirstClear with _ | j
    · rw [hff] at hstep
      simp at hstep
    · rw [hff] at hstep
      obtain ⟨hjlt, hjclear, _⟩ := (Bitmap.findFirstClear_spec fa.bitmap hwf).2 j hff
      have hfa' : fa' = ⟨fa.bitmap.set j, fa.start_address, fa.total_frames,
          fa.allocated_frames + 1⟩ := by
        have := Option.some.inj hstep
        exact (congrArg Prod.snd this).symm
      subst hfa'
      have hlen : j / 8 < fa.bitmap.data.length := by
        have : j < fa.bitmap.data.length * 8 := by omega
        omega
      have hcf := Bitmap.countFree_set fa.bitmap j hjlt hlen hjclear
      have hle := Bitmap.countFree_le fa.bitmap
      refine ⟨?_, by simpa [Bitmap.set_size] using hsize,
        by simpa [Bitmap.set_size, Bitmap.set_data_length] using hwf⟩
      unfold Bitmap.countAllocated at hcnt ⊢
      simp only [Bitmap.set_size]
      omega
  | alloc_many fa count addr fa' _ hstep ih =>
    obtain ⟨hcnt, hsize, hwf⟩ := ih
    unfold FrameAllocator.allocate_frames at hstep
    by_cases hc0 : count = 0
    · simp [hc0] at hstep
    · simp only [hc0, if_false] at hstep
      rcases hfc : fa.bitmap.findConsecutiveClear count with _ | s
      · rw [hfc] at hstep
        simp at hstep
      · rw [hfc] at hstep
        obtain ⟨_, hfit, hclear⟩ := Bitmap.findConsecutiveClear_spec fa.bitmap count s hfc
        have hfa' : fa' = ⟨fa.bitmap.setRange s count, fa.start_address,
            fa.total_frames, fa.allocated_frames + count⟩ := by
          have := Option.some.inj hstep
          exact (congrArg Prod.snd this).symm
        subst hfa'
        obtain ⟨hrs, hrl, hrc⟩ := setRange_spec count fa.bitmap s hfit hwf hclear
        have hle := Bitmap.countFree_le fa.bitmap
        refine ⟨?_, by simpa [hrs] using hsize, by dsimp only; rw [hrs, hrl]; exact hwf⟩
        dsimp only
        unfold Bitmap.countAllocated at hcnt ⊢
        rw [hrs]
        omega
  | dealloc_one fa addr fa' _ haddr hstep ih =>
    obtain ⟨hcnt, hsize, hwf⟩ := ih
    unfold FrameAllocator.deallocate_frame at hstep
    rcases hsub : checkedSub (alignDown64 addr FRAME_SIZE) fa.start_address
      with _ | diff
    · rw [hsub] at hstep
      simp at hstep
    · rw [hsub] at hstep
      by_cases hcond : diff / FRAME_SIZE < fa.total_frames ∧
          fa.bitmap.isSet (diff / FRAME_SIZE) = true
      · simp only [hcond, and_self, if_true] at hstep
        obtain ⟨hidx, hset⟩ := hcond
        have hfa' := (Option.some.inj hstep).symm
        subst hfa'
        have hidx' : diff / FRAME_SIZE < fa.bitmap.size := by omega
        have hlen : diff / FRAME_SIZE / 8 < fa.bitmap.data.length := by
          have : diff / FRAME_SIZE < fa.bitmap.data.length * 8 := by omega
          omega
        have hcf := Bitmap.countFree_clear fa.bitmap (diff / FRAME_SIZE) hidx' hlen hset
        have hle := Bitmap.countFree_le (fa.bitmap.clear (diff / FRAME_SIZE))
        rw [Bitmap.clear_size] at hle
        refine ⟨?_, by simpa [Bitmap.clear_size] using hsize,
          by simpa [Bitmap.clear_size, Bitmap.clear_data_length] using hwf⟩
        unfold Bitmap.countAllocated at hcnt ⊢
        simp only [Bitmap.clear_size]
        omega
      · simp only [hcond, if_false] at hstep
        have hfa' := (Option.some.inj hstep).symm
        subst hfa'
        exact ⟨hcnt, hsize, hwf⟩
  | dealloc_many fa addr count fa' _ haddr hstep ih =>
    obtain ⟨hcnt, hsize, hwf⟩ := ih
    unfold FrameAllocator.deallocate_frames at hstep
    rcases hsub : checkedSub (alignDown64 addr FRAME_SIZE) fa.start_address
      with _ | diff
    · rw [hsub] at hstep
      simp at hstep
    · rw [hsub] at hstep
      have hfa' := (Option.some.inj hstep).symm
      subst hfa'
      have hspec := deallocLoop_spec count fa.bitmap fa.allocated_frames
        (diff / FRAME_SIZE) hcnt hwf
      rw [hsize] at hspec
      refine ⟨?_, ?_, ?_⟩ <;> dsimp only
      · exact hspec.1
      · exact hspec.2.1
      · rw [hspec.2.1, hspec.2.2]
        omega

-- ---------------------------------------------------------------------------
-- BumpAllocator (src/kernel/src/allocator/bump.rs)
-- ---------------------------------------------------------------------------

/-- State of bump.rs BumpAllocator. -/
structure BumpAllocator where
  heap_start : Nat
  heap_end : Nat
  next : Nat
  allocations : Nat
deriving DecidableEq

namespace BumpAllocator

/-- BumpAllocator::new. -/
def new : BumpAllocator := ⟨0, 0, 0, 0⟩

/-- BumpAllocator::init. -/
def init (_b : BumpAllocator) (heapStart heapSize : Nat) : BumpAllocator :=
  ⟨heapStart, heapStart + heapSize, heapStart, 0⟩

/-- BumpAllocator::alloc. Returns the pointer (0 is the null sentinel)
and the next state. The overflow check on alloc_end is the code's
checked_add early exit, which reports failure without touching state. -/
def alloc (b : BumpAllocator) (size align : Nat) : Nat × BumpAllocator :=
  let allocStart := alignUp64 b.next align
  match checkedAdd allocStart size with
  | none => (0, b)
  | some allocEnd =>
    if b.heap_end < allocEnd then
      (0, b)
    else
      (allocStart, { b with next := allocEnd, allocations := b.allocations + 1 })

/-- BumpAllocator::reset. -/
def reset (b : BumpAllocator) : BumpAllocator :=
  { b with next := b.heap_start, allocations := 0 }

end BumpAllocator

-- ---------------------------------------------------------------------------
-- LinkedListAllocator (src/kernel/src/allocator/linked_list.rs)
-- ---------------------------------------------------------------------------

/-- mem::size_of::<ListNode>() on x86-64: usize size field plus the
niche-optimized Option reference, 8 + 8 bytes. -/
def MIN_BLOCK_SIZE : Nat := 16

/-- mem::align_of::<ListNode>() on x86-64. -/
def NODE_ALIGN : Nat := 8

/-- State of linked_list.rs LinkedListAllocator: the intrusive free list
as the sequence of (start address, size) node pairs in list order,
head.next first. -/
structure LinkedListAllocator where
  freeList : List (Nat × Nat)
deriving DecidableEq

namespace LinkedListAllocator

/-- LinkedListAllocator::new. -/
def new : LinkedListAllocator := ⟨[]⟩

/-- LinkedListAllocator::add_free_region: asserts the region can hold a
node and is node-aligned (none models the Rust panic), then pushes the
region at the head of the free list. -/
def add_free_region (a : LinkedListAllocator) (addr size : Nat) :
    Option LinkedListAllocator :=
  if MIN_BLOCK_SIZE ≤ size ∧ addr % NODE_ALIGN = 0 then
    some ⟨(addr, size) :: a.freeList⟩
  else none

/-- LinkedListAllocator::init. -/
def init (a : LinkedListAllocator) (heapStart heapSize : Nat) :
    Option LinkedListAllocator :=
  a.add_free_region heapStart heapSize

/-- LinkedListAllocator::alloc_from_region: the candidate start inside
the region, or none when the request does not fit or would leave an
unusable remainder smaller than one node. -/
def alloc_from_region (region : Nat × Nat) (size align : Nat) : Option Nat :=
  match checkedAdd (alignUp64 region.1 align) size with
  | none => none
  | some allocEnd =>
    if region.1 + region.2 < allocEnd then none
    else if 0 < region.1 + region.2 - allocEnd ∧
        region.1 + region.2 - allocEnd < MIN_BLOCK_SIZE then none
    else some (alignUp64 region.1 align)

/-- LinkedListAllocator::find_region: first-fit scan that unlinks and
returns the first suitable node together with the allocation start and
the remaining list. -/
def find_region (size align : Nat) :
    List (Nat × Nat) → Option ((Nat × Nat) × Nat × List (Nat × Nat))
  | [] => none
  | r :: rest =>
    match alloc_from_region r size align with
    | some allocStart => some (r, allocStart, rest)
    | none =>
      match find_region size align rest with
      | some (r', s', rest') => some (r', s', r :: rest')
      | none => none

/-- LinkedListAllocator::alloc. Returns some (pointer, new state), with
pointer 0 the null return on exhaustion; none models a panic
(the overflow expect or an add_free_region assert). -/
def alloc (a : LinkedListAllocator) (size align : Nat) :
    Option (Nat × LinkedListAllocator) :=
  match find_region (alignUp64 (max size MIN_BLOCK_SIZE) NODE_ALIGN) align a.freeList with
  | none => some (0, a)
  | some (region, allocStart, rest) =>
    match checkedAdd allocStart (alignUp64 (max size MIN_BLOCK_SIZE) NODE_ALIGN) with
    | none => none
    | some allocEnd =>
      if 0 < region.1 + region.2 - allocEnd then
        match LinkedListAllocator.add_free_region ⟨rest⟩ allocEnd
            (region.1 + region.2 - allocEnd) with
        | some a' => some (allocStart, a')
        | none => none
      else some (allocStart, ⟨rest⟩)

/-- LinkedListAllocator::dealloc: recompute the rounded size and push
the freed region as the new head of the free list. -/
def dealloc (a : LinkedListAllocator) (ptr size : Nat) : Option LinkedListAllocator :=
  a.add_free_region ptr (alignUp64 (max size MIN_BLOCK_SIZE) NODE_ALIGN)

end LinkedListAllocator

-- ---------------------------------------------------------------------------
-- Page tables and the page mapper
-- (src/kernel/src/memory/page_table.rs, src/kernel/src/memory/paging.rs)
-- ---------------------------------------------------------------------------

/-- PAGE_SIZE from memory/mod.rs. -/
def PAGE_SIZE : Nat := 4096

/-- Physical memory as seen through page tables: the 64-bit entry stored
at (table base address, entry index). This is the abstract frame-storage
view of the raw pointer overlays in paging.rs. -/
def Memory : Type := Nat → Nat → Nat

/-- Entry write: table[idx] = v, every other entry untouched. -/
def writeEntry (m : Memory) (table idx v : Nat) : Memory :=
  fun t i => if t = table ∧ i = idx then v else m t i

/-- PageTable::zero on the table at the given base address. -/
def zeroTable (m : Memory) (table : Nat) : Memory :=
  fun t i => if t = table then 0 else m t i

namespace PageTableFlags

/-- PageTableFlags::PRESENT. -/
def PRESENT : Nat := 1

/-- PageTableFlags::WRITABLE. -/
def WRITABLE : Nat := 2

end PageTableFlags

/-- The physical-address field mask of a page-table entry (bits 12-51). -/
def ADDR_MASK : Nat := 0x000FFFFFFFFFF000

namespace PageTableEntry

/-- PageTableEntry::is_present. -/
def is_present (e : Nat) : Bool := (e &&& PageTableFlags.PRESENT) != 0

/-- PageTableEntry::physical_address. -/
def physical_address (e : Nat) : Nat := e &&& ADDR_MASK

/-- PageTableEntry::set_address: the value written into the entry. -/
def set_address (addr flags : Nat) : Nat := (addr &&& ADDR_MASK) ||| flags

end PageTableEntry

namespace VirtualAddress

/-- VirtualAddress::pml4_index (bits 39-47). -/
def pml4_index (v : Nat) : Nat := (v >>> 39) &&& 0x1FF

/-- VirtualAddress::pdpt_index (bits 30-38). -/
def pdpt_index (v : Nat) : Nat := (v >>> 30) &&& 0x1FF

/-- VirtualAddress::pd_index (bits 21-29). -/
def pd_index (v : Nat) : Nat := (v >>> 21) &&& 0x1FF

/-- VirtualAddress::pt_index (bits 12-20). -/
def pt_index (v : Nat) : Nat := (v >>> 12) &&& 0x1FF

/-- VirtualAddress::page_offset (bits 0-11). -/
def page_offset (v : Nat) : Nat := v &&& 0xFFF

end VirtualAddress

/-- MapperError from paging.rs. -/
inductive MapperError where
  | OutOfMemory
  | PageAlreadyMapped
  | InvalidAddress
  | TableCreationFailed
deriving DecidableEq

namespace PageMapper

/-- PageMapper::get_or_create_table: reuse a present entry's table, or
allocate a fresh frame, point the entry at it with present+writable
flags, and zero the new table (in the order the code does: entry write
first, zeroing second). -/
def get_or_create_table (m : Memory) (fa : FrameAllocator) (parent idx : Nat) :
    Except MapperError (Memory × FrameAllocator × Nat) :=
  if PageTableEntry.is_present (m parent idx) then
    .ok (m, fa, PageTableEntry.physical_address (m parent idx))
  else
    match fa.allocate_frame with
    | none => .error .OutOfMemory
    | some (frame, fa') =>
      .ok (zeroTable (writeEntry m parent idx
          (PageTableEntry.set_address frame
            (PageTableFlags.PRESENT ||| PageTableFlags.WRITABLE))) frame,
        fa', frame)

/-- PageMapper::map_page. -/
def map_page (m : Memory) (fa : FrameAllocator) (pml4_address virt phys flags : Nat) :
    Except MapperError (Memory × FrameAllocator) :=
  if ¬ (virt % PAGE_SIZE = 0 ∧ phys % PAGE_SIZE = 0) then .error .InvalidAddress
  else
    match get_or_create_table m fa pml4_address (VirtualAddress.pml4_index virt) with
    | .error e => .error e
    | .ok (m1, fa1, pdpt) =>
      match get_or_create_table m1 fa1 pdpt (VirtualAddress.pdpt_index virt) with
      | .error e => .error e
      | .ok (m2, fa2, pd) =>
        match get_or_create_table m2 fa2 pd (VirtualAddress.pd_index virt) with
        | .error e => .error e
        | .ok (m3, fa3, pt) =>
          if PageTableEntry.is_present (m3 pt (VirtualAddress.pt_index virt)) then
            .error .PageAlreadyMapped
          else
            .ok (writeEntry m3 pt (VirtualAddress.pt_index virt)
              (PageTableEntry.set_address phys flags), fa3)

/-- PageMapper::unmap_page. -/
def unmap_page (m : Memory) (pml4_address virt : Nat) :
    Except MapperError (Memory × Nat) :=
  if ¬ virt % PAGE_SIZE = 0 then .error .InvalidAddress
  else
    if ¬ PageTableEntry.is_present (m pml4_address (VirtualAddress.pml4_index virt))
    then .error .InvalidAddress
    else
      let pdpt := PageTableEntry.physical_address
        (m pml4_address (VirtualAddress.pml4_index virt))
      if ¬ PageTableEntry.is_present (m pdpt (VirtualAddress.pdpt_index virt))
      then .error .InvalidAddress
      else
        let pd := PageTableEntry.physical_address
          (m pdpt (VirtualAddress.pdpt_index virt))
        if ¬ PageTableEntry.is_present (m pd (VirtualAddress.pd_index virt))
        then .error .InvalidAddress
        else
          let pt := PageTableEntry.physical_address
            (m pd (VirtualAddress.pd_index virt))
          if ¬ PageTableEntry.is_present (m pt (VirtualAddress.pt_index virt))
          then .error .InvalidAddress
          else
            .ok (writeEntry m pt (VirtualAddress.pt_index virt) 0,
              PageTableEntry.physical_address (m pt (VirtualAddress.pt_index virt)))

/-- PageMapper::translate. -/
def translate (m : Memory) (pml4_address virt : Nat) : Option Nat :=
  if ¬ PageTableEntry.is_present (m pml4_address (VirtualAddress.pml4_index virt))
  then none
  else
    let pdpt := PageTableEntry.physical_address
      (m pml4_address (VirtualAddress.pml4_index virt))
    if ¬ PageTableEntry.is_present (m pdpt (VirtualAddress.pdpt_index virt))
    then none
    else
      let pd := PageTableEntry.physical_address
        (m pdpt (VirtualAddress.pdpt_index virt))
      if ¬ PageTableEntry.is_present (m pd (VirtualAddress.pd_index virt))
      then none
      else
        let pt := PageTableEntry.physical_address
          (m pd (VirtualAddress.pd_index virt))
        if ¬ PageTableEntry.is_present (m pt (VirtualAddress.pt_index virt))
        then none
        else
          some (PageTableEntry.physical_address (m pt (VirtualAddress.pt_index virt))
            + VirtualAddress.page_offset virt)

end PageMapper

/-- The table addresses a walk for virt currently traverses (the present
prefix), starting from the top-level table. -/
def walkTables (m : Memory) (pml4_address virt : Nat) : List Nat :=
  pml4_address ::
    (if PageTableEntry.is_present (m pml4_address (VirtualAddress.pml4_index virt)) then
      (let t1 := PageTableEntry.physical_address
          (m pml4_address (VirtualAddress.pml4_index virt))
      t1 :: (if PageTableEntry.is_present (m t1 (VirtualAddress.pdpt_index virt)) then
        (let t2 := PageTableEntry.physical_address (m t1 (VirtualAddress.pdpt_index virt))
        t2 :: (if PageTableEntry.is_present (m t2 (VirtualAddress.pd_index virt)) then
          [PageTableEntry.physical_address (m t2 (VirtualAddress.pd_index virt))]
        else []))
      else []))
    else [])

/-- The addresses the frame allocator can hand out in its current state:
a free frame slot below the tracked size. -/
def canReturn (fa : FrameAllocator) (a : Nat) : Prop :=
  ∃ j, j < fa.bitmap.size ∧ a = fa.start_address + j * FRAME_SIZE ∧
    fa.bitmap.isSet j = false

-- Reads through entry writes and table zeroing.

theorem writeEntry_same (m : Memory) (t i v : Nat) : writeEntry m t i v t i = v := by
  unfold writeEntry
  simp

theorem writeEntry_ne (m : Memory) (t i v t' i' : Nat) (h : t' ≠ t ∨ i' ≠ i) :
    writeEntry m t i v t' i' = m t' i' := by
  unfold writeEntry
  rcases h with h | h <;> simp [h]

theorem zeroTable_same (m : Memory) (t i : Nat) : zeroTable m t t i = 0 := by
  unfold zeroTable
  simp

theorem zeroTable_ne (m : Memory) (t t' i : Nat) (h : t' ≠ t) :
    zeroTable m t t' i = m t' i := by
  unfold zeroTable
  simp [h]

-- Entry-value algebra.

theorem and_high_mask_gen {y N k : Nat} (hy : y < 2 ^ N) (hk : k ≤ N) :
    y &&& (2 ^ N - 2 ^ k) = y - y % 2 ^ k := by
  have hsub : y - y % 2 ^ k = (y / 2 ^ k) * 2 ^ k := by
    have h := Nat.div_add_mod y (2 ^ k)
    rw [Nat.sub_eq_iff_eq_add (Nat.mod_le _ _), Nat.mul_comm]
    exact h.symm
  apply Nat.eq_of_testBit_eq
  intro i
  have hU : 2 ^ N - 2 ^ k = (2 ^ (N - k) - 1) <<< k := by
    rw [Nat.shiftLeft_eq, Nat.sub_mul, one_mul, ← pow_add]
    have : N - k + k = N := by omega
    rw [this]
  have hdiv : (y / 2 ^ k) * 2 ^ k = (y >>> k) <<< k := by
    rw [Nat.shiftRight_eq_div_pow, Nat.shiftLeft_eq]
  rw [hsub, hU, hdiv, Nat.testBit_land, Nat.testBit_shiftLeft,
    Nat.testBit_shiftLeft, Nat.testBit_shiftRight, Nat.testBit_two_pow_sub_one]
  by_cases hik : k ≤ i
  · have hki : k + (i - k) = i := by omega
    by_cases hN : i < N
    · have : i - k < N - k := by omega
      simp [hik, hki, this, ge_iff_le]
    · have hbit : y.testBit i = false := by
        apply Nat.testBit_eq_false_of_lt
        calc y < 2 ^ N := hy
        _ ≤ 2 ^ i := Nat.pow_le_pow_right (by decide) (by omega)
      simp [hik, hki, hbit]
  · simp [hik, ge_iff_le]

/-- A frame-aligned address below 2 ^ 52 is fixed by the entry address
mask. -/
theorem mask_id {a : Nat} (ha : a % 4096 = 0) (hlt : a < 2 ^ 52) :
    a &&& ADDR_MASK = a := by
  have h : ADDR_MASK = 2 ^ 52 - 2 ^ 12 := by decide
  rw [h, and_high_mask_gen hlt (by omega)]
  have h2 : (2 : Nat) ^ 12 = 4096 := by norm_num
  omega

theorem and_lor_distrib_right (x y m : Nat) :
    (x ||| y) &&& m = (x &&& m) ||| (y &&& m) := by
  apply Nat.eq_of_testBit_eq
  intro i
  rw [Nat.testBit_land, Nat.testBit_lor, Nat.testBit_lor, Nat.testBit_land,
    Nat.testBit_land]
  cases hx : x.testBit i <;> cases hy : y.testBit i <;> cases hm : m.testBit i <;> rfl

theorem pa_set_address {a flags : Nat} (hmask : a &&& ADDR_MASK = a)
    (hfl : flags &&& ADDR_MASK = 0) :
    PageTableEntry.physical_address (PageTableEntry.set_address a flags) = a := by
  unfold PageTableEntry.physical_address PageTableEntry.set_address
  rw [and_lor_distrib_right, Nat.land_assoc,
    (show ADDR_MASK &&& ADDR_MASK = ADDR_MASK by decide), hmask, hfl]
  simp

theorem is_present_testBit (e : Nat) :
    PageTableEntry.is_present e = e.testBit 0 := by
  unfold PageTableEntry.is_present PageTableFlags.PRESENT
  rw [show (1 : Nat) = 1 <<< 0 from rfl]
  exact and_one_shift_ne e 0

theorem present_set_address {a flags : Nat} (hfl : flags.testBit 0 = true) :
    PageTableEntry.is_present (PageTableEntry.set_address a flags) = true := by
  rw [is_present_testBit]
  unfold PageTableEntry.set_address
  rw [Nat.testBit_lor, hfl]
  simp

theorem is_present_zero : PageTableEntry.is_present 0 = false := by decide

-- The page-table indices of virt + k agree with those of virt for a
-- page-aligned virt and an in-page offset k.

theorem index_invariance {virt k : Nat} (hv : virt % 4096 = 0) (hk : k < 4096) :
    VirtualAddress.pml4_index (virt + k) = VirtualAddress.pml4_index virt ∧
    VirtualAddress.pdpt_index (virt + k) = VirtualAddress.pdpt_index virt ∧
    VirtualAddress.pd_index (virt + k) = VirtualAddress.pd_index virt ∧
    VirtualAddress.pt_index (virt + k) = VirtualAddress.pt_index virt ∧
    VirtualAddress.page_offset (virt + k) = k := by
  have hsh : ∀ s, 12 ≤ s → (virt + k) >>> s = virt >>> s := by
    intro s hs
    rw [Nat.shiftRight_eq_div_pow, Nat.shiftRight_eq_div_pow]
    have hc : (2 : Nat) ^ s = 4096 * 2 ^ (s - 12) := by
      rw [show (4096 : Nat) = 2 ^ 12 by norm_num, ← pow_add]
      congr 1
      omega
    rw [hc, ← Nat.div_div_eq_div_mul, ← Nat.div_div_eq_div_mul]
    have hq : (virt + k) / 4096 = virt / 4096 := by omega
    rw [hq]
  refine ⟨?_, ?_, ?_, ?_, ?_⟩
  · unfold VirtualAddress.pml4_index
    rw [hsh 39 (by omega)]
  · unfold VirtualAddress.pdpt_index
    rw [hsh 30 (by omega)]
  · unfold VirtualAddress.pd_index
    rw [hsh 21 (by omega)]
  · unfold VirtualAddress.pt_index
    rw [hsh 12 (by omega)]
  · unfold VirtualAddress.page_offset
    rw [show (0xFFF : Nat) = 2 ^ 12 - 1 by norm_num,
      Nat.and_pow_two_sub_one_eq_mod]
    have h2 : (2 : Nat) ^ 12 = 4096 := by norm_num
    omega

-- Freshness behaviour of FrameAllocator::allocate_frame.

theorem allocate_frame_spec (fa : FrameAllocator)
    (hwf : fa.bitmap.size ≤ 8 * fa.bitmap.data.length) :
    (1 ≤ fa.bitmap.countFree → ∃ a fa', fa.allocate_frame = some (a, fa')) ∧
    (∀ a fa', fa.allocate_frame = some (a, fa') →
      canReturn fa a ∧
      fa'.start_address = fa.start_address ∧
      fa'.bitmap.size = fa.bitmap.size ∧
      fa'.bitmap.data.length = fa.bitmap.data.length ∧
      fa'.bitmap.countFree + 1 = fa.bitmap.countFree ∧
      (∀ b, canReturn fa' b → canReturn fa b ∧ b ≠ a)) := by
  constructor
  · intro hfree
    unfold FrameAllocator.allocate_frame
    rcases hff : fa.bitmap.findFirstClear with _ | j
    · exfalso
      have hall := (Bitmap.findFirstClear_spec fa.bitmap hwf).1.mp hff
      have hzero : fa.bitmap.countFree = 0 := by
        unfold Bitmap.countFree
        rw [List.countP_eq_zero]
        intro a ha
        have : a < fa.bitmap.size := List.mem_range.mp ha
        simp [hall a this]
      omega
    · exact ⟨_, _, rfl⟩
  · intro a fa' hstep
    unfold FrameAllocator.allocate_frame at hstep
    rcases hff : fa.bitmap.findFirstClear with _ | j
    · rw [hff] at hstep
      simp at hstep
    · rw [hff] at hstep
      obtain ⟨hjlt, hjclear, _⟩ := (Bitmap.findFirstClear_spec fa.bitmap hwf).2 j hff
      have hpair := Option.some.inj hstep
      have ha : a = fa.start_address + j * FRAME_SIZE :=
        (congrArg Prod.fst hpair).symm
      have hfa' : fa' = ⟨fa.bitmap.set j, fa.start_address, fa.total_frames,
          fa.allocated_frames + 1⟩ := (congrArg Prod.snd hpair).symm
      subst hfa'
      have hlen : j / 8 < fa.bitmap.data.length := by
        have : j < fa.bitmap.data.length * 8 := by omega
        omega
      refine ⟨⟨j, hjlt, ha, hjclear⟩, rfl, Bitmap.set_size _ _,
        Bitmap.set_data_length _ _,
        Bitmap.countFree_set fa.bitmap j hjlt hlen hjclear, ?_⟩
      intro b hb
      obtain ⟨j', hj'lt, hb', hj'clear⟩ := hb
      dsimp only at hj'lt hb' hj'clear
      rw [Bitmap.set_size] at hj'lt
      rw [Bitmap.isSet_set fa.bitmap j j' hjlt hlen] at hj'clear
      by_cases hjj : j' = j
      · simp [hjj] at hj'clear
      · simp only [hjj, if_false] at hj'clear
        refine ⟨⟨j', hj'lt, hb', hj'clear⟩, ?_⟩
        rw [ha, hb']
        have hfs : FRAME_SIZE = 4096 := rfl
        intro hcontra
        rw [hfs] at hcontra
        omega

/-- Shape of the final memory after a successful map of virt to phys:
a fully present walk p4 -> t1 -> t2 -> t3 whose leaf entry holds
phys with the caller flags, with the leaf table distinct from the other
walked tables. -/
def walkFacts (m : Memory) (p4 virt phys flags t1 t2 t3 : Nat) : Prop :=
  PageTableEntry.is_present (m p4 (VirtualAddress.pml4_index virt)) = true ∧
  PageTableEntry.physical_address (m p4 (VirtualAddress.pml4_index virt)) = t1 ∧
  PageTableEntry.is_present (m t1 (VirtualAddress.pdpt_index virt)) = true ∧
  PageTableEntry.physical_address (m t1 (VirtualAddress.pdpt_index virt)) = t2 ∧
  PageTableEntry.is_present (m t2 (VirtualAddress.pd_index virt)) = true ∧
  PageTableEntry.physical_address (m t2 (VirtualAddress.pd_index virt)) = t3 ∧
  m t3 (VirtualAddress.pt_index virt) = PageTableEntry.set_address phys flags ∧
  t3 ≠ p4 ∧ t3 ≠ t1 ∧ t3 ≠ t2

/-- What the walk shape buys: translate resolves every in-page offset,
unmap succeeds clearing exactly the leaf entry and returning phys, and
translate afterwards is none. -/
theorem walk_conclusions {m : Memory} {p4 virt phys flags t1 t2 t3 : Nat}
    (hw : walkFacts m p4 virt phys flags t1 t2 t3)
    (hv : virt % PAGE_SIZE = 0)
    (hphysM : phys &&& ADDR_MASK = phys)
    (hflagsM : flags &&& ADDR_MASK = 0)
    (hfl0 : flags.testBit 0 = true) :
    (∀ k, k < PAGE_SIZE →
      PageMapper.translate m p4 (virt + k) = some (phys + k)) ∧
    PageMapper.unmap_page m p4 virt =
      .ok (writeEntry m t3 (VirtualAddress.pt_index virt) 0, phys) ∧
    PageMapper.translate (writeEntry m t3 (VirtualAddress.pt_index virt) 0) p4 virt
      = none := by
  obtain ⟨h1, h2, h3, h4, h5, h6, h7, hne1, hne2, hne3⟩ := hw
  have hv' : virt % 4096 = 0 := hv
  have hleafp : PageTableEntry.is_present (m t3 (VirtualAddress.pt_index virt))
      = true := by
    rw [h7]
    exact present_set_address hfl0
  have hleafa : PageTableEntry.physical_address
      (m t3 (VirtualAddress.pt_index virt)) = phys := by
    rw [h7]
    exact pa_set_address hphysM hflagsM
  refine ⟨?_, ?_, ?_⟩
  · intro k hk
    have hk' : k < 4096 := hk
    obtain ⟨hi4, hi3, hi2, hi1, hoff⟩ := index_invariance hv' hk'
    unfold PageMapper.translate
    rw [hi4, hi3, hi2, hi1, hoff]
    simp only [h1, h2, h3, h4, h5, h6, hleafp, hleafa, not_true, if_false]
  · unfold PageMapper.unmap_page
    rw [if_neg (not_not_intro hv)]
    simp only [h1, h2, h3, h4, h5, h6, hleafp, hleafa, not_true, if_false]
  · unfold PageMapper.translate
    have hr1 : writeEntry m t3 (VirtualAddress.pt_index virt) 0 p4
        (VirtualAddress.pml4_index virt) = m p4 (VirtualAddress.pml4_index virt) :=
      writeEntry_ne _ _ _ _ _ _ (Or.inl (Ne.symm hne1))
    have hr2 : writeEntry m t3 (VirtualAddress.pt_index virt) 0 t1
        (VirtualAddress.pdpt_index virt) = m t1 (VirtualAddress.pdpt_index virt) :=
      writeEntry_ne _ _ _ _ _ _ (Or.inl (Ne.symm hne2))
    have hr3 : writeEntry m t3 (VirtualAddress.pt_index virt) 0 t2
        (VirtualAddress.pd_index virt) = m t2 (VirtualAddress.pd_index virt) :=
      writeEntry_ne _ _ _ _ _ _ (Or.inl (Ne.symm hne3))
    simp only [hr1, h1, h2]
    simp only [hr2, h3, h4]
    simp only [hr3, h5, h6]
    simp only [writeEntry_same, is_present_zero]
    simp

theorem mapPage_caseA (m : Memory) (fa : FrameAllocator) (p4 virt phys flags : Nat)
    (hv : virt % PAGE_SIZE = 0) (hp : phys % PAGE_SIZE = 0)
    (hnodup : (walkTables m p4 virt).Nodup)
    (hunmapped : PageMapper.translate m p4 virt = none)
    (h1 : PageTableEntry.is_present (m p4 (VirtualAddress.pml4_index virt)) = true)
    (h2 : PageTableEntry.is_present
      (m (PageTableEntry.physical_address (m p4 (VirtualAddress.pml4_index virt)))
        (VirtualAddress.pdpt_index virt)) = true)
    (h3 : PageTableEntry.is_present
      (m (PageTableEntry.physical_address
          (m (PageTableEntry.physical_address (m p4 (VirtualAddress.pml4_index virt)))
            (VirtualAddress.pdpt_index virt)))
        (VirtualAddress.pd_index virt)) = true) :
    ∃ m' fa' t1 t2 t3,
      PageMapper.map_page m fa p4 virt phys flags = .ok (m', fa') ∧
      walkFacts m' p4 virt phys flags t1 t2 t3 := by
  have hwt : walkTables m p4 virt =
      [p4,
       PageTableEntry.physical_address (m p4 (VirtualAddress.pml4_index virt)),
       PageTableEntry.physical_address
         (m (PageTableEntry.physical_address (m p4 (VirtualAddress.pml4_index virt)))
           (VirtualAddress.pdpt_index virt)),
       PageTableEntry.physical_address
         (m (PageTableEntry.physical_address
             (m (PageTableEntry.physical_address
                 (m p4 (VirtualAddress.pml4_index virt)))
               (VirtualAddress.pdpt_index virt)))
           (VirtualAddress.pd_index virt))] := by
    unfold walkTables
    simp only [h1, h2, h3, if_true]
  rw [hwt] at hnodup
  simp only [List.nodup_cons, List.mem_cons, List.mem_singleton,
    List.not_mem_nil, or_false, not_or, List.nodup_nil, and_true] at hnodup
  obtain ⟨⟨hpt1, hpt2, hpt3⟩, ⟨ht12, ht13⟩, ht23, -⟩ := hnodup
  have h4 : PageTableEntry.is_present
      (m (PageTableEntry.physical_address
          (m (PageTableEntry.physical_address
              (m (PageTableEntry.physical_address
                  (m p4 (VirtualAddress.pml4_index virt)))
                (VirtualAddress.pdpt_index virt)))
            (VirtualAddress.pd_index virt)))
        (VirtualAddress.pt_index virt)) = false := by
    cases h4x : PageTableEntry.is_present
        (m (PageTableEntry.physical_address
            (m (PageTableEntry.physical_address
                (m (PageTableEntry.physical_address
                    (m p4 (VirtualAddress.pml4_index virt)))
                  (VirtualAddress.pdpt_index virt)))
              (VirtualAddress.pd_index virt)))
          (VirtualAddress.pt_index virt)) with
    | false => rfl
    | true =>
      exfalso
      unfold PageMapper.translate at hunmapped
      simp only [h1, h2, h3, h4x, not_true, if_false] at hunmapped
      exact Option.noConfusion hunmapped
  have hg1 : PageMapper.get_or_create_table m fa p4 (VirtualAddress.pml4_index virt)
      = .ok (m, fa,
        PageTableEntry.physical_address (m p4 (VirtualAddress.pml4_index virt))) := by
    unfold PageMapper.get_or_create_table
    rw [if_pos h1]
  have hg2 : PageMapper.get_or_create_table m fa
      (PageTableEntry.physical_address (m p4 (VirtualAddress.pml4_index virt)))
      (VirtualAddress.pdpt_index virt)
      = .ok (m, fa,
        PageTableEntry.physical_address
          (m (PageTableEntry.physical_address (m p4 (VirtualAddress.pml4_index virt)))
            (VirtualAddress.pdpt_index virt))) := by
    unfold PageMapper.get_or_create_table
    rw [if_pos h2]
  have hg3 : PageMapper.get_or_create_table m fa
      (PageTableEntry.physical_address
        (m (PageTableEntry.physical_address (m p4 (VirtualAddress.pml4_index virt)))
          (VirtualAddress.pdpt_index virt)))
      (VirtualAddress.pd_index virt)
      = .ok (m, fa,
        PageTableEntry.physical_address
          (m (PageTableEntry.physical_address
              (m (PageTableEntry.physical_address
                  (m p4 (VirtualAddress.pml4_index virt)))
                (VirtualAddress.pdpt_index virt)))
            (VirtualAddress.pd_index virt))) := by
    unfold PageMapper.get_or_create_table
    rw [if_pos h3]
  refine ⟨writeEntry m
      (PageTableEntry.physical_address
        (m (PageTableEntry.physical_address
            (m (PageTableEntry.physical_address
                (m p4 (VirtualAddress.pml4_index virt)))
              (VirtualAddress.pdpt_index virt)))
          (VirtualAddress.pd_index virt)))
      (VirtualAddress.pt_index virt) (PageTableEntry.set_address phys flags),
    fa,
    PageTableEntry.physical_address (m p4 (VirtualAddress.pml4_index virt)),
    PageTableEntry.physical_address
      (m (PageTableEntry.physical_address (m p4 (VirtualAddress.pml4_index virt)))
        (VirtualAddress.pdpt_index virt)),
    PageTableEntry.physical_address
      (m (PageTableEntry.physical_address
          (m (PageTableEntry.physical_address (m p4 (VirtualAddress.pml4_index virt)))
            (VirtualAddress.pdpt_index virt)))
        (VirtualAddress.pd_index virt)),
    ?_, ?_⟩
  · unfold PageMapper.map_page
    rw [if_neg (not_not_intro ⟨hv, hp⟩), hg1]
    dsimp only
    rw [hg2]
    dsimp only
    rw [hg3]
    dsimp only
    rw [if_neg (by simp [h4])]
  · refine ⟨?_, ?_, ?_, ?_, ?_, ?_, ?_, Ne.symm hpt3, Ne.symm ht13, Ne.symm ht23⟩
    · rw [writeEntry_ne _ _ _ _ _ _ (Or.inl hpt3)]
      exact h1
    · rw [writeEntry_ne _ _ _ _ _ _ (Or.inl hpt3)]
    · rw [writeEntry_ne _ _ _ _ _ _ (Or.inl ht13)]
      exact h2
    · rw [writeEntry_ne _ _ _ _ _ _ (Or.inl ht13)]
    · rw [writeEntry_ne _ _ _ _ _ _ (Or.inl ht23)]
      exact h3
    · rw [writeEntry_ne _ _ _ _ _ _ (Or.inl ht23)]
    · rw [writeEntry_same]

theorem mapPage_caseB (m : Memory) (fa : FrameAllocator) (p4 virt phys flags : Nat)
    (hv : virt % PAGE_SIZE = 0) (hp : phys % PAGE_SIZE = 0)
    (hwf : fa.bitmap.size ≤ 8 * fa.bitmap.data.length)
    (hfree : 3 ≤ fa.bitmap.countFree)
    (hdisj : ∀ a, canReturn fa a → a ∉ walkTables m p4 virt ∧ a &&& ADDR_MASK = a)
    (hnodup : (walkTables m p4 virt).Nodup)
    (h1 : PageTableEntry.is_present (m p4 (VirtualAddress.pml4_index virt)) = true)
    (h2 : PageTableEntry.is_present
      (m (PageTableEntry.physical_address (m p4 (VirtualAddress.pml4_index virt)))
        (VirtualAddress.pdpt_index virt)) = true)
    (h3 : PageTableEntry.is_present
      (m (PageTableEntry.physical_address
          (m (PageTableEntry.physical_address (m p4 (VirtualAddress.pml4_index virt)))
            (VirtualAddress.pdpt_index virt)))
        (VirtualAddress.pd_index virt)) = false) :
    ∃ m' fa' t1 t2 t3,
      PageMapper.map_page m fa p4 virt phys flags = .ok (m', fa') ∧
      walkFacts m' p4 virt phys flags t1 t2 t3 := by
  have hPW : PageTableFlags.PRESENT ||| PageTableFlags.WRITABLE = 3 := by decide
  have hwt : walkTables m p4 virt =
      [p4,
       PageTableEntry.physical_address (m p4 (VirtualAddress.pml4_index virt)),
       PageTableEntry.physical_address
         (m (PageTableEntry.physical_address (m p4 (VirtualAddress.pml4_index virt)))
           (VirtualAddress.pdpt_index virt))] := by
    unfold walkTables
    simp only [h1, h2, h3, if_true, Bool.false_eq_true, if_false]
  rw [hwt] at hnodup
  simp only [List.nodup_cons, List.mem_cons, List.mem_singleton,
    List.not_mem_nil, or_false, not_or, List.nodup_nil, and_true] at hnodup
  obtain ⟨⟨hpt1, hpt2⟩, ht12, -⟩ := hnodup
  obtain ⟨F1, fa1, halloc⟩ := (allocate_frame_spec fa hwf).1 (by omega)
  obtain ⟨hcr, hst1, hsz1, hln1, hcf1, hmono1⟩ :=
    (allocate_frame_spec fa hwf).2 F1 fa1 halloc
  obtain ⟨hF1nm, hF1M⟩ := hdisj F1 hcr
  rw [hwt] at hF1nm
  simp only [List.mem_cons, List.mem_singleton, List.not_mem_nil, or_false,
    not_or] at hF1nm
  obtain ⟨hF1p4, hF1t1, hF1t2⟩ := hF1nm
  have hg1 : PageMapper.get_or_create_table m fa p4 (VirtualAddress.pml4_index virt)
      = .ok (m, fa,
        PageTableEntry.physical_address (m p4 (VirtualAddress.pml4_index virt))) := by
    unfold PageMapper.get_or_create_table
    rw [if_pos h1]
  have hg2 : PageMapper.get_or_create_table m fa
      (PageTableEntry.physical_address (m p4 (VirtualAddress.pml4_index virt)))
      (VirtualAddress.pdpt_index virt)
      = .ok (m, fa,
        PageTableEntry.physical_address
          (m (PageTableEntry.physical_address (m p4 (VirtualAddress.pml4_index virt)))
            (VirtualAddress.pdpt_index virt))) := by
    unfold PageMapper.get_or_create_table
    rw [if_pos h2]
  have hg3 : PageMapper.get_or_create_table m fa
      (PageTableEntry.physical_address
        (m (PageTableEntry.physical_address (m p4 (VirtualAddress.pml4_index virt)))
          (VirtualAddress.pdpt_index virt)))
      (VirtualAddress.pd_index virt)
      = .ok (zeroTable (writeEntry m
          (PageTableEntry.physical_address
            (m (PageTableEntry.physical_address (m p4 (VirtualAddress.pml4_index virt)))
              (VirtualAddress.pdpt_index virt)))
          (VirtualAddress.pd_index virt)
          (PageTableEntry.set_address F1
            (PageTableFlags.PRESENT ||| PageTableFlags.WRITABLE))) F1,
        fa1, F1) := by
    unfold PageMapper.get_or_create_table
    rw [if_neg (by simp [h3])]
    rw [halloc]
  refine ⟨writeEntry
      (zeroTable (writeEntry m
        (PageTableEntry.physical_address
          (m (PageTableEntry.physical_address (m p4 (VirtualAddress.pml4_index virt)))
            (VirtualAddress.pdpt_index virt)))
        (VirtualAddress.pd_index virt)
        (PageTableEntry.set_address F1
          (PageTableFlags.PRESENT ||| PageTableFlags.WRITABLE))) F1)
      F1 (VirtualAddress.pt_index virt) (PageTableEntry.set_address phys flags),
    fa1,
    PageTableEntry.physical_address (m p4 (VirtualAddress.pml4_index virt)),
    PageTableEntry.physical_address
      (m (PageTableEntry.physical_address (m p4 (VirtualAddress.pml4_index virt)))
        (VirtualAddress.pdpt_index virt)),
    F1, ?_, ?_⟩
  · unfold PageMapper.map_page
    rw [if_neg (not_not_intro ⟨hv, hp⟩), hg1]
    dsimp only
    rw [hg2]
    dsimp only
    rw [hg3]
    dsimp only
    rw [if_neg (by simp [zeroTable_same, is_present_zero])]
  · refine ⟨?_, ?_, ?_, ?_, ?_, ?_, ?_, hF1p4, hF1t1, hF1t2⟩
    · rw [writeEntry_ne _ _ _ _ _ _ (Or.inl (Ne.symm hF1p4)),
        zeroTable_ne _ _ _ _ (Ne.symm hF1p4),
        writeEntry_ne _ _ _ _ _ _ (Or.inl hpt2)]
      exact h1
    · rw [writeEntry_ne _ _ _ _ _ _ (Or.inl (Ne.symm hF1p4)),
        zeroTable_ne _ _ _ _ (Ne.symm hF1p4),
        writeEntry_ne _ _ _ _ _ _ (Or.inl hpt2)]
    · rw [writeEntry_ne _ _ _ _ _ _ (Or.inl (Ne.symm hF1t1)),
        zeroTable_ne _ _ _ _ (Ne.symm hF1t1),
        writeEntry_ne _ _ _ _ _ _ (Or.inl ht12)]
      exact h2
    · rw [writeEntry_ne _ _ _ _ _ _ (Or.inl (Ne.symm hF1t1)),
        zeroTable_ne _ _ _ _ (Ne.symm hF1t1),
        writeEntry_ne _ _ _ _ _ _ (Or.inl ht12)]
    · rw [writeEntry_ne _ _ _ _ _ _ (Or.inl (Ne.symm hF1t2)),
        zeroTable_ne _ _ _ _ (Ne.symm hF1t2),
        writeEntry_same, hPW]
      exact present_set_address (by decide)
    · rw [writeEntry_ne _ _ _ _ _ _ (Or.inl (Ne.symm hF1t2)),
        zeroTable_ne _ _ _ _ (Ne.symm hF1t2),
        writeEntry_same, hPW]
      exact pa_set_address hF1M (by decide)
    · rw [writeEntry_same]

theorem mapPage_caseC (m : Memory) (fa : FrameAllocator) (p4 virt phys flags : Nat)
    (hv : virt % PAGE_SIZE = 0) (hp : phys % PAGE_SIZE = 0)
    (hwf : fa.bitmap.size ≤ 8 * fa.bitmap.data.length)
    (hfree : 3 ≤ fa.bitmap.countFree)
    (hdisj : ∀ a, canReturn fa a → a ∉ walkTables m p4 virt ∧ a &&& ADDR_MASK = a)
    (hnodup : (walkTables m p4 virt).Nodup)
    (h1 : PageTableEntry.is_present (m p4 (VirtualAddress.pml4_index virt)) = true)
    (h2 : PageTableEntry.is_present
      (m (PageTableEntry.physical_address (m p4 (VirtualAddress.pml4_index virt)))
        (VirtualAddress.pdpt_index virt)) = false) :
    ∃ m' fa' t1 t2 t3,
      PageMapper.map_page m fa p4 virt phys flags = .ok (m', fa') ∧
      walkFacts m' p4 virt phys flags t1 t2 t3 := by
  have hPW : PageTableFlags.PRESENT ||| PageTableFlags.WRITABLE = 3 := by decide
  have hwt : walkTables m p4 virt =
      [p4, PageTableEntry.physical_address (m p4 (VirtualAddress.pml4_index virt))] := by
    unfold walkTables
    simp only [h1, h2, if_true, Bool.false_eq_true, if_false]
  rw [hwt] at hnodup
  simp only [List.nodup_cons, List.mem_cons, List.mem_singleton,
    List.not_mem_nil, or_false, not_or, List.nodup_nil, and_true] at hnodup
  have hpt1 : p4 ≠ PageTableEntry.physical_address (m p4 (VirtualAddress.pml4_index virt)) :=
    hnodup.1
  obtain ⟨F1, fa1, halloc1⟩ := (allocate_frame_spec fa hwf).1 (by omega)
  obtain ⟨hcr1, hst1, hsz1, hln1, hcf1, hmono1⟩ :=
    (allocate_frame_spec fa hwf).2 F1 fa1 halloc1
  obtain ⟨hF1nm, hF1M⟩ := hdisj F1 hcr1
  rw [hwt] at hF1nm
  simp only [List.mem_cons, List.mem_singleton, List.not_mem_nil, or_false,
    not_or] at hF1nm
  obtain ⟨hF1p4, hF1t1⟩ := hF1nm
  have hwf1 : fa1.bitmap.size ≤ 8 * fa1.bitmap.data.length := by
    rw [hsz1, hln1]
    exact hwf
  obtain ⟨F2, fa2, halloc2⟩ := (allocate_frame_spec fa1 hwf1).1 (by omega)
  obtain ⟨hcr2, hst2, hsz2, hln2, hcf2, hmono2⟩ :=
    (allocate_frame_spec fa1 hwf1).2 F2 fa2 halloc2
  obtain ⟨hcr2', hF2F1⟩ := hmono1 F2 hcr2
  obtain ⟨hF2nm, hF2M⟩ := hdisj F2 hcr2'
  rw [hwt] at hF2nm
  simp only [List.mem_cons, List.mem_singleton, List.not_mem_nil, or_false,
    not_or] at hF2nm
  obtain ⟨hF2p4, hF2t1⟩ := hF2nm
  have hg1 : PageMapper.get_or_create_table m fa p4 (VirtualAddress.pml4_index virt)
      = .ok (m, fa,
        PageTableEntry.physical_address (m p4 (VirtualAddress.pml4_index virt))) := by
    unfold PageMapper.get_or_create_table
    rw [if_pos h1]
  have hg2 : PageMapper.get_or_create_table m fa
      (PageTableEntry.physical_address (m p4 (VirtualAddress.pml4_index virt)))
      (VirtualAddress.pdpt_index virt)
      = .ok (zeroTable (writeEntry m
          (PageTableEntry.physical_address (m p4 (VirtualAddress.pml4_index virt)))
          (VirtualAddress.pdpt_index virt)
          (PageTableEntry.set_address F1
            (PageTableFlags.PRESENT ||| PageTableFlags.WRITABLE))) F1,
        fa1, F1) := by
    unfold PageMapper.get_or_create_table
    rw [if_neg (by simp [h2])]
    rw [halloc1]
  have hpre3 : PageTableEntry.is_present
      ((zeroTable (writeEntry m
        (PageTableEntry.physical_address (m p4 (VirtualAddress.pml4_index virt)))
        (VirtualAddress.pdpt_index virt)
        (PageTableEntry.set_address F1
          (PageTableFlags.PRESENT ||| PageTableFlags.WRITABLE))) F1) F1
        (VirtualAddress.pd_index virt)) = false := by
    rw [zeroTable_same]
    exact is_present_zero
  have hg3 : PageMapper.get_or_create_table
      (zeroTable (writeEntry m
        (PageTableEntry.physical_address (m p4 (VirtualAddress.pml4_index virt)))
        (VirtualAddress.pdpt_index virt)
        (PageTableEntry.set_address F1
          (PageTableFlags.PRESENT ||| PageTableFlags.WRITABLE))) F1)
      fa1 F1 (VirtualAddress.pd_index virt)
      = .ok (zeroTable (writeEntry
          (zeroTable (writeEntry m
            (PageTableEntry.physical_address (m p4 (VirtualAddress.pml4_index virt)))
            (VirtualAddress.pdpt_index virt)
            (PageTableEntry.set_address F1
              (PageTableFlags.PRESENT ||| PageTableFlags.WRITABLE))) F1)
          F1 (VirtualAddress.pd_index virt)
          (PageTableEntry.set_address F2
            (PageTableFlags.PRESENT ||| PageTableFlags.WRITABLE))) F2,
        fa2, F2) := by
    unfold PageMapper.get_or_create_table
    rw [if_neg (by simp [hpre3])]
    rw [halloc2]
  refine ⟨writeEntry
      (zeroTable (writeEntry
        (zeroTable (writeEntry m
          (PageTableEntry.physical_address (m p4 (VirtualAddress.pml4_index virt)))
          (VirtualAddress.pdpt_index virt)
          (PageTableEntry.set_address F1
            (PageTableFlags.PRESENT ||| PageTableFlags.WRITABLE))) F1)
        F1 (VirtualAddress.pd_index virt)
        (PageTableEntry.set_address F2
          (PageTableFlags.PRESENT ||| PageTableFlags.WRITABLE))) F2)
      F2 (VirtualAddress.pt_index virt) (PageTableEntry.set_address phys flags),
    fa2,
    PageTableEntry.physical_address (m p4 (VirtualAddress.pml4_index virt)),
    F1, F2, ?_, ?_⟩
  · unfold PageMapper.map_page
    rw [if_neg (not_not_intro ⟨hv, hp⟩), hg1]
    dsimp only
    rw [hg2]
    dsimp only
    rw [hg3]
    dsimp only
    rw [if_neg (by simp [zeroTable_same, is_present_zero])]
  · refine ⟨?_, ?_, ?_, ?_, ?_, ?_, ?_, hF2p4, hF2t1, hF2F1⟩
    · rw [writeEntry_ne _ _ _ _ _ _ (Or.inl (Ne.symm hF2p4)),
        zeroTable_ne _ _ _ _ (Ne.symm hF2p4),
        writeEntry_ne _ _ _ _ _ _ (Or.inl (Ne.symm hF1p4)),
        zeroTable_ne _ _ _ _ (Ne.symm hF1p4),
        writeEntry_ne _ _ _ _ _ _ (Or.inl hpt1)]
      exact h1
    · rw [writeEntry_ne _ _ _ _ _ _ (Or.inl (Ne.symm hF2p4)),
        zeroTable_ne _ _ _ _ (Ne.symm hF2p4),
        writeEntry_ne _ _ _ _ _ _ (Or.inl (Ne.symm hF1p4)),
        zeroTable_ne _ _ _ _ (Ne.symm hF1p4),
        writeEntry_ne _ _ _ _ _ _ (Or.inl hpt1)]
    · rw [writeEntry_ne _ _ _ _ _ _ (Or.inl (Ne.symm hF2t1)),
        zeroTable_ne _ _ _ _ (Ne.symm hF2t1),
        writeEntry_ne _ _ _ _ _ _ (Or.inl (Ne.symm hF1t1)),
        zeroTable_ne _ _ _ _ (Ne.symm hF1t1),
        writeEntry_same, hPW]
      exact present_set_address (by decide)
    · rw [writeEntry_ne _ _ _ _ _ _ (Or.inl (Ne.symm hF2t1)),
        zeroTable_ne _ _ _ _ (Ne.symm hF2t1),
        writeEntry_ne _ _ _ _ _ _ (Or.inl (Ne.symm hF1t1)),
        zeroTable_ne _ _ _ _ (Ne.symm hF1t1),
        writeEntry_same, hPW]
      exact pa_set_address hF1M (by decide)
    · rw [writeEntry_ne _ _ _ _ _ _ (Or.inl (Ne.symm hF2F1)),
        zeroTable_ne _ _ _ _ (Ne.symm hF2F1),
        writeEntry_same, hPW]
      exact present_set_address (by decide)
    · rw [writeEntry_ne _ _ _ _ _ _ (Or.inl (Ne.symm hF2F1)),
        zeroTable_ne _ _ _ _ (Ne.symm hF2F1),
        writeEntry_same, hPW]
      exact pa_set_address hF2M (by decide)
    · rw [writeEntry_same]

theorem mapPage_caseD (m : Memory) (fa : FrameAllocator) (p4 virt phys flags : Nat)
    (hv : virt % PAGE_SIZE = 0) (hp : phys % PAGE_SIZE = 0)
    (hwf : fa.bitmap.size ≤ 8 * fa.bitmap.data.length)
    (hfree : 3 ≤ fa.bitmap.countFree)
    (hdisj : ∀ a, canReturn fa a → a ∉ walkTables m p4 virt ∧ a &&& ADDR_MASK = a)
    (h1 : PageTableEntry.is_present (m p4 (VirtualAddress.pml4_index virt)) = false) :
    ∃ m' fa' t1 t2 t3,
      PageMapper.map_page m fa p4 virt phys flags = .ok (m', fa') ∧
      walkFacts m' p4 virt phys flags t1 t2 t3 := by
  have hPW : PageTableFlags.PRESENT ||| PageTableFlags.WRITABLE = 3 := by decide
  have hwt : walkTables m p4 virt = [p4] := by
    unfold walkTables
    simp only [h1, Bool.false_eq_true, if_false]
  obtain ⟨F1, fa1, halloc1⟩ := (allocate_frame_spec fa hwf).1 (by omega)
  obtain ⟨hcr1, hst1, hsz1, hln1, hcf1, hmono1⟩ :=
    (allocate_frame_spec fa hwf).2 F1 fa1 halloc1
  obtain ⟨hF1nm, hF1M⟩ := hdisj F1 hcr1
  rw [hwt] at hF1nm
  simp only [List.mem_singleton] at hF1nm
  have hwf1 : fa1.bitmap.size ≤ 8 * fa1.bitmap.data.length := by
    rw [hsz1, hln1]
    exact hwf
  obtain ⟨F2, fa2, halloc2⟩ := (allocate_frame_spec fa1 hwf1).1 (by omega)
  obtain ⟨hcr2, hst2, hsz2, hln2, hcf2, hmono2⟩ :=
    (allocate_frame_spec fa1 hwf1).2 F2 fa2 halloc2
  obtain ⟨hcr2', hF2F1⟩ := hmono1 F2 hcr2
  obtain ⟨hF2nm, hF2M⟩ := hdisj F2 hcr2'
  rw [hwt] at hF2nm
  simp only [List.mem_singleton] at hF2nm
  have hwf2 : fa2.bitmap.size ≤ 8 * fa2.bitmap.data.length := by
    rw [hsz2, hln2]
    exact hwf1
  obtain ⟨F3, fa3, halloc3⟩ := (allocate_frame_spec fa2 hwf2).1 (by omega)
  obtain ⟨hcr3, hst3, hsz3, hln3, hcf3, hmono3⟩ :=
    (allocate_frame_spec fa2 hwf2).2 F3 fa3 halloc3
  obtain ⟨hcr3', hF3F2⟩ := hmono2 F3 hcr3
  obtain ⟨hcr3'', hF3F1⟩ := hmono1 F3 hcr3'
  obtain ⟨hF3nm, hF3M⟩ := hdisj F3 hcr3''
  rw [hwt] at hF3nm
  simp only [List.mem_singleton] at hF3nm
  have hg1 : PageMapper.get_or_create_table m fa p4 (VirtualAddress.pml4_index virt)
      = .ok (zeroTable (writeEntry m p4 (VirtualAddress.pml4_index virt)
          (PageTableEntry.set_address F1
            (PageTableFlags.PRESENT ||| PageTableFlags.WRITABLE))) F1,
        fa1, F1) := by
    unfold PageMapper.get_or_create_table
    rw [if_neg (by simp [h1])]
    rw [halloc1]
  have hpre2 : PageTableEntry.is_present
      ((zeroTable (writeEntry m p4 (VirtualAddress.pml4_index virt)
        (PageTableEntry.set_address F1
          (PageTableFlags.PRESENT ||| PageTableFlags.WRITABLE))) F1) F1
        (VirtualAddress.pdpt_index virt)) = false := by
    rw [zeroTable_same]
    exact is_present_zero
  have hg2 : PageMapper.get_or_create_table
      (zeroTable (writeEntry m p4 (VirtualAddress.pml4_index virt)
        (PageTableEntry.set_address F1
          (PageTableFlags.PRESENT ||| PageTableFlags.WRITABLE))) F1)
      fa1 F1 (VirtualAddress.pdpt_index virt)
      = .ok (zeroTable (writeEntry
          (zeroTable (writeEntry m p4 (VirtualAddress.pml4_index virt)
            (PageTableEntry.set_address F1
              (PageTableFlags.PRESENT ||| PageTableFlags.WRITABLE))) F1)
          F1 (VirtualAddress.pdpt_index virt)
          (PageTableEntry.set_address F2
            (PageTableFlags.PRESENT ||| PageTableFlags.WRITABLE))) F2,
        fa2, F2) := by
    unfold PageMapper.get_or_create_table
    rw [if_neg (by simp [hpre2])]
    rw [halloc2]
  have hpre3 : PageTableEntry.is_present
      ((zeroTable (writeEntry
        (zeroTable (writeEntry m p4 (VirtualAddress.pml4_index virt)
          (PageTableEntry.set_address F1
            (PageTableFlags.PRESENT ||| PageTableFlags.WRITABLE))) F1)
        F1 (VirtualAddress.pdpt_index virt)
        (PageTableEntry.set_address F2
          (PageTableFlags.PRESENT ||| PageTableFlags.WRITABLE))) F2) F2
        (VirtualAddress.pd_index virt)) = false := by
    rw [zeroTable_same]
    exact is_present_zero
  have hg3 : PageMapper.get_or_create_table
      (zeroTable (writeEntry
        (zeroTable (writeEntry m p4 (VirtualAddress.pml4_index virt)
          (PageTableEntry.set_address F1
            (PageTableFlags.PRESENT ||| PageTableFlags.WRITABLE))) F1)
        F1 (VirtualAddress.pdpt_index virt)
        (PageTableEntry.set_address F2
          (PageTableFlags.PRESENT ||| PageTableFlags.WRITABLE))) F2)
      fa2 F2 (VirtualAddress.pd_index virt)
      = .ok (zeroTable (writeEntry
          (zeroTable (writeEntry
            (zeroTable (writeEntry m p4 (VirtualAddress.pml4_index virt)
              (PageTableEntry.set_address F1
                (PageTableFlags.PRESENT ||| PageTableFlags.WRITABLE))) F1)
            F1 (VirtualAddress.pdpt_index virt)
            (PageTableEntry.set_address F2
              (PageTableFlags.PRESENT ||| PageTableFlags.WRITABLE))) F2)
          F2 (VirtualAddress.pd_index virt)
          (PageTableEntry.set_address F3
            (PageTableFlags.PRESENT ||| PageTableFlags.WRITABLE))) F3,
        fa3, F3) := by
    unfold PageMapper.get_or_create_table
    rw [if_neg (by simp [hpre3])]
    rw [halloc3]
  refine ⟨writeEntry
      (zeroTable (writeEntry
        (zeroTable (writeEntry
          (zeroTable (writeEntry m p4 (VirtualAddress.pml4_index virt)
            (PageTableEntry.set_address F1
              (PageTableFlags.PRESENT ||| PageTableFlags.WRITABLE))) F1)
          F1 (VirtualAddress.pdpt_index virt)
          (PageTableEntry.set_address F2
            (PageTableFlags.PRESENT ||| PageTableFlags.WRITABLE))) F2)
        F2 (VirtualAddress.pd_index virt)
        (PageTableEntry.set_address F3
          (PageTableFlags.PRESENT ||| PageTableFlags.WRITABLE))) F3)
      F3 (VirtualAddress.pt_index virt) (PageTableEntry.set_address phys flags),
    fa3, F1, F2, F3, ?_, ?_⟩
  · unfold PageMapper.map_page
    rw [if_neg (not_not_intro ⟨hv, hp⟩), hg1]
    dsimp only
    rw [hg2]
    dsimp only
    rw [hg3]
    dsimp only
    rw [if_neg (by simp [zeroTable_same, is_present_zero])]
  · refine ⟨?_, ?_, ?_, ?_, ?_, ?_, ?_, hF3nm, hF3F1, hF3F2⟩
    · rw [writeEntry_ne _ _ _ _ _ _ (Or.inl (Ne.symm hF3nm)),
        zeroTable_ne _ _ _ _ (Ne.symm hF3nm),
        writeEntry_ne _ _ _ _ _ _ (Or.inl (Ne.symm hF2nm)),
        zeroTable_ne _ _ _ _ (Ne.symm hF2nm),
        writeEntry_ne _ _ _ _ _ _ (Or.inl (Ne.symm hF1nm)),
        zeroTable_ne _ _ _ _ (Ne.symm hF1nm),
        writeEntry_same, hPW]
      exact present_set_address (by decide)
    · rw [writeEntry_ne _ _ _ _ _ _ (Or.inl (Ne.symm hF3nm)),
        zeroTable_ne _ _ _ _ (Ne.symm hF3nm),
        writeEntry_ne _ _ _ _ _ _ (Or.inl (Ne.symm hF2nm)),
        zeroTable_ne _ _ _ _ (Ne.symm hF2nm),
        writeEntry_ne _ _ _ _ _ _ (Or.inl (Ne.symm hF1nm)),
        zeroTable_ne _ _ _ _ (Ne.symm hF1nm),
        writeEntry_same, hPW]
      exact pa_set_address hF1M (by decide)
    · rw [writeEntry_ne _ _ _ _ _ _ (Or.inl (Ne.symm hF3F1)),
        zeroTable_ne _ _ _ _ (Ne.symm hF3F1),
        writeEntry_ne _ _ _ _ _ _ (Or.inl (Ne.symm hF2F1)),
        zeroTable_ne _ _ _ _ (Ne.symm hF2F1),
        writeEntry_same, hPW]
      exact present_set_address (by decide)
    · rw [writeEntry_ne _ _ _ _ _ _ (Or.inl (Ne.symm hF3F1)),
        zeroTable_ne _ _ _ _ (Ne.symm hF3F1),
        writeEntry_ne _ _ _ _ _ _ (Or.inl (Ne.symm hF2F1)),
        zeroTable_ne _ _ _ _ (Ne.symm hF2F1),
        writeEntry_same, hPW]
      exact pa_set_address hF2M (by decide)
    · rw [writeEntry_ne _ _ _ _ _ _ (Or.inl (Ne.symm hF3F2)),
        zeroTable_ne _ _ _ _ (Ne.symm hF3F2),
        writeEntry_same, hPW]
      exact present_set_address (by decide)
    · rw [writeEntry_ne _ _ _ _ _ _ (Or.inl (Ne.symm hF3F2)),
        zeroTable_ne _ _ _ _ (Ne.symm hF3F2),
        writeEntry_same, hPW]
      exact pa_set_address hF3M (by decide)
    · rw [writeEntry_same]

/-- Successful mapping from any state satisfying the freshness and
distinctness side conditions: map_page succeeds and produces a full
present walk whose leaf holds phys with the caller's flags. -/
theorem mapPage_spec (m : Memory) (fa : FrameAllocator) (p4 virt phys flags : Nat)
    (hv : virt % PAGE_SIZE = 0) (hp : phys % PAGE_SIZE = 0)
    (hwf : fa.bitmap.size ≤ 8 * fa.bitmap.data.length)
    (hfree : 3 ≤ fa.bitmap.countFree)
    (hdisj : ∀ a, canReturn fa a → a ∉ walkTables m p4 virt ∧ a &&& ADDR_MASK = a)
    (hnodup : (walkTables m p4 virt).Nodup)
    (hunmapped : PageMapper.translate m p4 virt = none) :
    ∃ m' fa' t1 t2 t3,
      PageMapper.map_page m fa p4 virt phys flags = .ok (m', fa') ∧
      walkFacts m' p4 virt phys flags t1 t2 t3 := by
  cases h1 : PageTableEntry.is_present (m p4 (VirtualAddress.pml4_index virt)) with
  | false => exact mapPage_caseD m fa p4 virt phys flags hv hp hwf hfree hdisj h1
  | true =>
    cases h2 : PageTableEntry.is_present
        (m (PageTableEntry.physical_address (m p4 (VirtualAddress.pml4_index virt)))
          (VirtualAddress.pdpt_index virt)) with
    | false =>
      exact mapPage_caseC m fa p4 virt phys flags hv hp hwf hfree hdisj
        hnodup h1 h2
    | true =>
      cases h3 : PageTableEntry.is_present
          (m (PageTableEntry.physical_address
              (m (PageTableEntry.physical_address (m p4 (VirtualAddress.pml4_index virt)))
                (VirtualAddress.pdpt_index virt)))
            (VirtualAddress.pd_index virt)) with
      | false =>
        exact mapPage_caseB m fa p4 virt phys flags hv hp hwf hfree hdisj
          hnodup h1 h2 h3
      | true =>
        exact mapPage_caseA m fa p4 virt phys flags hv hp hnodup hunmapped
          h1 h2 h3

/-- The memory component of a mapper result (all-zero memory on error);
used to state concrete consequences of map_page without comparing whole
memories. -/
def exceptMemOf (r : Except MapperError (Memory × FrameAllocator)) : Memory :=
  match r with
  | .ok mf => mf.1
  | .error _ => fun _ _ => 0

/-- The table reached after one step of the walk. -/
def walkLevel1 (m : Memory) (p4 virt : Nat) : Nat :=
  PageTableEntry.physical_address (m p4 (VirtualAddress.pml4_index virt))

/-- The table reached after two steps of the walk. -/
def walkLevel2 (m : Memory) (p4 virt : Nat) : Nat :=
  PageTableEntry.physical_address
    (m (walkLevel1 m p4 virt) (VirtualAddress.pdpt_index virt))

/-- The leaf table reached after three steps of the walk. -/
def walkLevel3 (m : Memory) (p4 virt : Nat) : Nat :=
  PageTableEntry.physical_address
    (m (walkLevel2 m p4 virt) (VirtualAddress.pd_index virt))

end Aetherion

open Aetherion

-- ===========================================================================
-- Claims
-- ===========================================================================

/-- Claim C7 (counterexample): as stated, the alignment round-trip fails
on the code for x = 2 ^ 64 - 1 and n = 2: align_up wraps around to 0 at
usize width, so x is not below or equal to align_up x n. -/
theorem c7_counterexample :
    ¬ ((2 ^ 64 - 1 : Nat) ≤ alignUp64 (2 ^ 64 - 1) 2) := by decide

/-- Claim C7 (amended): for every usize address x and every power of two
n = 2 ^ k representable in usize, provided x + n - 1 does not overflow,
align_down (align_up x n) n = align_up x n, align_down x n is at most x,
and x is at most align_up x n. -/
theorem c7_alignment_roundtrip (x k : Nat) (hk : k ≤ 63)
    (hno : x + 2 ^ k - 1 < U64) :
    alignDown64 (alignUp64 x (2 ^ k)) (2 ^ k) = alignUp64 x (2 ^ k) ∧
    alignDown64 x (2 ^ k) ≤ x ∧ x ≤ alignUp64 x (2 ^ k) := by
  have hk64 : k ≤ 64 := by omega
  have hp : 0 < 2 ^ k := Nat.pos_pow_of_pos k (by decide)
  refine ⟨?_, Nat.and_le_left, alignUp64_ge hk64 hno⟩
  have hup : alignUp64 x (2 ^ k) = (x + 2 ^ k - 1) - (x + 2 ^ k - 1) % 2 ^ k :=
    alignUp64_pow hk64 hno
  have hdivmul : (x + 2 ^ k - 1) - (x + 2 ^ k - 1) % 2 ^ k
      = ((x + 2 ^ k - 1) / 2 ^ k) * 2 ^ k := by
    have h := Nat.div_add_mod (x + 2 ^ k - 1) (2 ^ k)
    rw [Nat.sub_eq_iff_eq_add (Nat.mod_le _ _), Nat.mul_comm]
    exact h.symm
  have hlt : alignUp64 x (2 ^ k) < U64 := by
    rw [hup]
    omega
  rw [alignDown64_pow hlt hk64, hup, hdivmul, Nat.mul_mod_left, Nat.sub_zero]

/-- Witness for claim C7's amended theorem at x = 0x1234, n = 2 ^ 12. -/
theorem c7_alignment_roundtrip_witness :
    alignDown64 (alignUp64 0x1234 (2 ^ 12)) (2 ^ 12) = alignUp64 0x1234 (2 ^ 12) ∧
    alignDown64 0x1234 (2 ^ 12) ≤ 0x1234 ∧ 0x1234 ≤ alignUp64 0x1234 (2 ^ 12) :=
  c7_alignment_roundtrip 0x1234 12 (by decide) (by decide)

/-- Claim C3 (counterexample): over the 4096-byte heap of the claim, the
first alloc of 64 bytes does not consume the whole region, and a second
alloc of 64 bytes succeeds (returns a non-null pointer), contradicting
the claim that any second alloc returns the invalid sentinel. -/
theorem c3_counterexample :
    (((BumpAllocator.new.init 0x10000 4096).alloc 64 1).2.alloc 64 1).1 ≠ 0 := by
  decide

/-- Claim C3 (amended): over the 64-byte heap [0x10000, 0x10000 + 64) that
the code's own test exercises, alloc(size=64, align=1) succeeds at
0x10000 and consumes the whole region (next reaches heap_end), and a
second alloc of any positive size and any representable power-of-two
alignment returns the null sentinel and leaves the state unchanged. -/
theorem c3_bump_scenario :
    (((BumpAllocator.new.init 0x10000 64).alloc 64 1).1 = 0x10000) ∧
    (((BumpAllocator.new.init 0x10000 64).alloc 64 1).2.next =
      ((BumpAllocator.new.init 0x10000 64).alloc 64 1).2.heap_end) ∧
    (∀ size k, 1 ≤ size → k ≤ 63 →
      ((BumpAllocator.new.init 0x10000 64).alloc 64 1).2.alloc size (2 ^ k) =
        (0, ((BumpAllocator.new.init 0x10000 64).alloc 64 1).2)) := by
  have hb1 : ((BumpAllocator.new.init 0x10000 64).alloc 64 1).2 =
      ⟨0x10000, 0x10040, 0x10040, 1⟩ := by decide
  refine ⟨by decide, by decide, ?_⟩
  intro size k hsize hk
  rw [hb1]
  have hno : (0x10040 : Nat) + 2 ^ k - 1 < U64 := by
    have h1 : (2 : Nat) ^ k ≤ 2 ^ 63 := Nat.pow_le_pow_right (by decide) hk
    have h2 : U64 = 2 ^ 64 := rfl
    omega
  have hge : (0x10040 : Nat) ≤ alignUp64 0x10040 (2 ^ k) :=
    alignUp64_ge (by omega) hno
  show BumpAllocator.alloc ⟨0x10000, 0x10040, 0x10040, 1⟩ size (2 ^ k) = _
  unfold BumpAllocator.alloc checkedAdd
  simp only
  by_cases hov : alignUp64 0x10040 (2 ^ k) + size < U64
  · have hgt : (0x10040 : Nat) < alignUp64 0x10040 (2 ^ k) + size := by omega
    simp [hov, hgt]
  · simp [hov]

/-- Witness for claim C3's amended theorem: the second alloc of size 64
with alignment 1 fails and leaves the state unchanged. -/
theorem c3_bump_scenario_witness :
    ((BumpAllocator.new.init 0x10000 64).alloc 64 1).2.alloc 64 (2 ^ 0) =
      (0, ((BumpAllocator.new.init 0x10000 64).alloc 64 1).2) :=
  c3_bump_scenario.2.2 64 0 (by decide) (by decide)

/-- Claim C10: whenever BumpAllocator::alloc fails, either because the
aligned allocation end exceeds heap_end or because the size addition
overflows usize, it returns the null sentinel and the allocator state is
completely unchanged. -/
theorem c10_bump_alloc_failure_unchanged (b : BumpAllocator) (size align : Nat)
    (hfail : U64 ≤ alignUp64 b.next align + size ∨
             b.heap_end < alignUp64 b.next align + size) :
    b.alloc size align = (0, b) := by
  unfold BumpAllocator.alloc checkedAdd
  simp only
  by_cases hov : alignUp64 b.next align + size < U64
  · have hgt : b.heap_end < alignUp64 b.next align + size := by
      rcases hfail with h | h
      · omega
      · exact h
    simp [hov, hgt]
  · simp [hov]

/-- Witness for claim C10 at a concrete exhausted state. -/
theorem c10_bump_alloc_failure_unchanged_witness :
    BumpAllocator.alloc ⟨0x10000, 0x10040, 0x10040, 1⟩ 64 1 =
      (0, ⟨0x10000, 0x10040, 0x10040, 1⟩) :=
  c10_bump_alloc_failure_unchanged ⟨0x10000, 0x10040, 0x10040, 1⟩ 64 1
    (by right; decide)

/-- Claim C5: for every Bitmap state whose buffer covers the tracked
bits, find_first_clear returns none if and only if every index strictly
below size is set; otherwise it returns some of the smallest clear index
below size. -/
theorem c5_find_first_clear_correct (b : Bitmap) (hwf : b.size ≤ 8 * b.data.length) :
    (b.findFirstClear = none ↔ ∀ i, i < b.size → b.isSet i = true) ∧
    (∀ j, b.findFirstClear = some j →
      j < b.size ∧ b.isSet j = false ∧ ∀ i, i < j → b.isSet i = true) :=
  Bitmap.findFirstClear_spec b hwf

/-- Witness for claim C5 on the 16-bit bitmap with bits 0..9 set:
find_first_clear returns 10, which is clear, in range, and preceded only
by set bits. -/
theorem c5_find_first_clear_correct_witness :
    Bitmap.isSet (Bitmap.mk [255, 3] 16) 10 = false ∧
    (10 : Nat) < (Bitmap.mk [255, 3] 16).size ∧
    Bitmap.isSet (Bitmap.mk [255, 3] 16) 9 = true := by
  have h := c5_find_first_clear_correct (Bitmap.mk [255, 3] 16) (by decide)
  have h2 := h.2 10 (by decide)
  exact ⟨h2.2.1, h2.1, h2.2.2 9 (by decide)⟩

/-- Claim C4: in every frame-allocator state reachable from construction
by the four allocation and deallocation operations (deallocations at or
above start_address), the counter allocated_frames equals
bitmap.count_allocated(), and every address returned by allocate_frame
or allocate_frames is start_address + k * FRAME_SIZE for some
k < total_frames. -/
theorem c4_frame_allocator_invariant (fa : FrameAllocator) (h : FAReachable fa) :
    fa.allocated_frames = fa.bitmap.countAllocated ∧
    (∀ addr fa', fa.allocate_frame = some (addr, fa') →
      ∃ k, k < fa.total_frames ∧ addr = fa.start_address + k * FRAME_SIZE) ∧
    (∀ count addr fa', fa.allocate_frames count = some (addr, fa') →
      ∃ k, k < fa.total_frames ∧ addr = fa.start_address + k * FRAME_SIZE) := by
  obtain ⟨hcnt, hsize, hwf⟩ := FAReachable_inv fa h
  refine ⟨hcnt, ?_, ?_⟩
  · intro addr fa' hstep
    unfold FrameAllocator.allocate_frame at hstep
    rcases hff : fa.bitmap.findFirstClear with _ | j
    · rw [hff] at hstep
      simp at hstep
    · rw [hff] at hstep
      obtain ⟨hlt, _, _⟩ := (Bitmap.findFirstClear_spec fa.bitmap hwf).2 j hff
      have haddr : addr = fa.start_address + j * FRAME_SIZE :=
        (congrArg Prod.fst (Option.some.inj hstep)).symm
      exact ⟨j, by omega, haddr⟩
  · intro count addr fa' hstep
    unfold FrameAllocator.allocate_frames at hstep
    by_cases hc0 : count = 0
    · simp [hc0] at hstep
    · simp only [hc0, if_false] at hstep
      rcases hfc : fa.bitmap.findConsecutiveClear count with _ | s
      · rw [hfc] at hstep
        simp at hstep
      · rw [hfc] at hstep
        obtain ⟨hcpos, hfit, _⟩ :=
          Bitmap.findConsecutiveClear_spec fa.bitmap count s hfc
        have haddr : addr = fa.start_address + s * FRAME_SIZE :=
          (congrArg Prod.fst (Option.some.inj hstep)).symm
        exact ⟨s, by omega, haddr⟩

/-- Witness for claim C4: the state reached by one allocate_frame from a
16-frame allocator at 0x100000 keeps the counter in sync with the
bitmap. -/
theorem c4_frame_allocator_invariant_witness :
    (FrameAllocator.mk (Bitmap.mk [1, 0] 16) 0x100000 16 1).allocated_frames =
      (FrameAllocator.mk (Bitmap.mk [1, 0] 16) 0x100000 16 1).bitmap.countAllocated := by
  have h0 := FAReachable.construct 0x100000 (16 * FRAME_SIZE)
    (List.replicate 2 0) (by decide)
  have hreach : FAReachable (FrameAllocator.mk (Bitmap.mk [1, 0] 16) 0x100000 16 1) :=
    FAReachable.alloc_one _ 0x100000 _ h0 (by decide)
  exact (c4_frame_allocator_invariant _ hreach).1

/-- Claim C9 (counterexample): totality for every address at or above
start_address fails when start_address is not frame-aligned: the code
aligns the address down before subtracting, and the aligned address can
drop below start_address, underflowing the usize subtraction (modelled
as none) even though addr is at or above start_address. -/
theorem c9_counterexample :
    (FrameAllocator.new 0x100800 (16 * FRAME_SIZE) (List.replicate 2 0)).start_address
      ≤ 0x100900 ∧
    (FrameAllocator.new 0x100800 (16 * FRAME_SIZE)
      (List.replicate 2 0)).deallocate_frame 0x100900 = none := by
  constructor
  · decide
  · decide

/-- Claim C9 (amended): deallocate_frame and deallocate_frames subtract
start_address from the frame-aligned address without a guard. When
start_address is frame-aligned, the operations are total (a silent no-op
when the index is out of range or the bit is clear) for every usize
address at or above start_address; for every address below
start_address the subtraction underflows, so totality requires the
precondition addr at or above start_address. -/
theorem c9_dealloc_requires_addr_ge_start (fa : FrameAllocator) (addr count : Nat)
    (hstart : fa.start_address % FRAME_SIZE = 0) (hlt : addr < U64) :
    (fa.start_address ≤ addr →
      (fa.deallocate_frame addr).isSome = true ∧
      (fa.deallocate_frames addr count).isSome = true) ∧
    (addr < fa.start_address →
      fa.deallocate_frame addr = none ∧ fa.deallocate_frames addr count = none) := by
  have halign : alignDown64 addr FRAME_SIZE = addr - addr % 4096 := by
    have h := alignDown64_pow (x := addr) (k := 12) hlt (by omega)
    norm_num at h
    rw [show FRAME_SIZE = 4096 from rfl]
    exact h
  rw [show FRAME_SIZE = 4096 from rfl] at hstart
  constructor
  · intro haddr
    have hA : fa.start_address ≤ addr - addr % 4096 := by omega
    constructor
    · unfold FrameAllocator.deallocate_frame checkedSub
      rw [halign]
      simp only [hA, if_true]
      by_cases hcond : (addr - addr % 4096 - fa.start_address) / FRAME_SIZE
          < fa.total_frames ∧
          fa.bitmap.isSet ((addr - addr % 4096 - fa.start_address) / FRAME_SIZE) = true
      · simp [hcond]
      · simp [hcond]
    · unfold FrameAllocator.deallocate_frames checkedSub
      rw [halign]
      simp [hA]
  · intro haddr
    have hA : ¬ fa.start_address ≤ addr - addr % 4096 := by omega
    constructor
    · unfold FrameAllocator.deallocate_frame checkedSub
      rw [halign]
      simp [hA]
    · unfold FrameAllocator.deallocate_frames checkedSub
      rw [halign]
      simp [hA]

/-- Witness for claim C9's amended theorem: on a 16-frame allocator at
the frame-aligned base 0x100000 with frame 0 allocated, deallocation at
the base address succeeds. -/
theorem c9_dealloc_requires_addr_ge_start_witness :
    ((FrameAllocator.mk (Bitmap.mk [1, 0] 16) 0x100000 16 1).deallocate_frame
      0x100000).isSome = true :=
  ((c9_dealloc_requires_addr_ge_start
    (FrameAllocator.mk (Bitmap.mk [1, 0] 16) 0x100000 16 1) 0x100000 1
    (by decide) (by decide)).1 (by decide)).1

/-- Claim C2 (counterexample): a region of 72 bytes with a 64-byte
request leaves excess 8 (0 < 8 < MIN_BLOCK_SIZE); the claim says the
remainder is absorbed and the region still used, but the code rejects
the region in alloc_from_region, first-fit skips it, and alloc returns
the null pointer with the free list unchanged. -/
theorem c2_counterexample :
    (LinkedListAllocator.mk [(0x8000, 72)]).alloc 64 8 =
      some (0, LinkedListAllocator.mk [(0x8000, 72)]) := by
  decide

/-- Claim C2 (amended): when the selected free region would leave a
remainder with 0 < excess < MIN_BLOCK_SIZE, the region is rejected by
alloc_from_region (Err), so the first-fit search skips it entirely (no
absorption, the region is not used); a region is selected only when its
remainder is zero or at least MIN_BLOCK_SIZE, and a selected region's
positive remainder is reinserted as a new free node at the head of the
remaining list. -/
theorem c2_remainder_policy :
    (∀ rStart rSize size align,
      0 < rStart + rSize - (alignUp64 rStart align + size) →
      rStart + rSize - (alignUp64 rStart align + size) < MIN_BLOCK_SIZE →
      LinkedListAllocator.alloc_from_region (rStart, rSize) size align = none) ∧
    (∀ rStart rSize size align s,
      LinkedListAllocator.alloc_from_region (rStart, rSize) size align = some s →
      s = alignUp64 rStart align ∧
      (rStart + rSize - (s + size) = 0 ∨
        MIN_BLOCK_SIZE ≤ rStart + rSize - (s + size))) ∧
    (∀ (a : LinkedListAllocator) (size align rStart rSize s : Nat)
        (rest : List (Nat × Nat)),
      LinkedListAllocator.find_region
          (alignUp64 (max size MIN_BLOCK_SIZE) NODE_ALIGN) align a.freeList =
        some ((rStart, rSize), s, rest) →
      ∀ ptr a', a.alloc size align = some (ptr, a') →
        ptr = s ∧
        (rStart + rSize - (s + alignUp64 (max size MIN_BLOCK_SIZE) NODE_ALIGN) = 0 →
          a'.freeList = rest) ∧
        (0 < rStart + rSize - (s + alignUp64 (max size MIN_BLOCK_SIZE) NODE_ALIGN) →
          a'.freeList =
            (s + alignUp64 (max size MIN_BLOCK_SIZE) NODE_ALIGN,
              rStart + rSize - (s + alignUp64 (max size MIN_BLOCK_SIZE) NODE_ALIGN))
              :: rest)) := by
  refine ⟨?_, ?_, ?_⟩
  · intro rStart rSize size align hpos hsmall
    unfold LinkedListAllocator.alloc_from_region checkedAdd
    by_cases hov : alignUp64 rStart align + size < U64
    · simp only [hov, if_true]
      have hfit : ¬ rStart + rSize < alignUp64 rStart align + size := by omega
      simp [hfit, hpos, hsmall]
    · simp [hov]
  · intro rStart rSize size align s hs
    unfold LinkedListAllocator.alloc_from_region checkedAdd at hs
    by_cases hov : alignUp64 rStart align + size < U64
    · simp only [hov, if_true] at hs
      by_cases hfit : rStart + rSize < alignUp64 rStart align + size
      · simp [hfit] at hs
      · simp only [hfit, if_false] at hs
        by_cases hsmall : 0 < rStart + rSize - (alignUp64 rStart align + size) ∧
            rStart + rSize - (alignUp64 rStart align + size) < MIN_BLOCK_SIZE
        · simp [hsmall] at hs
        · simp only [hsmall, if_false] at hs
          have hse : s = alignUp64 rStart align := (Option.some.inj hs).symm
          subst hse
          exact ⟨rfl, by omega⟩
    · simp [hov] at hs
  · intro a size align rStart rSize s rest hfind ptr a' hstep
    unfold LinkedListAllocator.alloc at hstep
    rw [hfind] at hstep
    dsimp only at hstep
    rcases hov : checkedAdd s (alignUp64 (max size MIN_BLOCK_SIZE) NODE_ALIGN)
      with _ | allocEnd
    · rw [hov] at hstep
      simp at hstep
    · rw [hov] at hstep
      dsimp only at hstep
      have hend : allocEnd = s + alignUp64 (max size MIN_BLOCK_SIZE) NODE_ALIGN := by
        unfold checkedAdd at hov
        by_cases h : s + alignUp64 (max size MIN_BLOCK_SIZE) NODE_ALIGN < U64
        · simp [h] at hov
          omega
        · simp [h] at hov
      subst hend
      by_cases hexcess : 0 < rStart + rSize -
          (s + alignUp64 (max size MIN_BLOCK_SIZE) NODE_ALIGN)
      · simp only [hexcess, if_true] at hstep
        rcases hadd : LinkedListAllocator.add_free_region ⟨rest⟩
            (s + alignUp64 (max size MIN_BLOCK_SIZE) NODE_ALIGN)
            (rStart + rSize - (s + alignUp64 (max size MIN_BLOCK_SIZE) NODE_ALIGN))
          with _ | a''
        · rw [hadd] at hstep
          simp at hstep
        · rw [hadd] at hstep
          have hpair := Option.some.inj hstep
          have hptr : ptr = s := (congrArg Prod.fst hpair).symm
          have ha' : a' = a'' := (congrArg Prod.snd hpair).symm
          unfold LinkedListAllocator.add_free_region at hadd
          by_cases hassert : MIN_BLOCK_SIZE ≤ rStart + rSize -
              (s + alignUp64 (max size MIN_BLOCK_SIZE) NODE_ALIGN) ∧
              (s + alignUp64 (max size MIN_BLOCK_SIZE) NODE_ALIGN) % NODE_ALIGN = 0
          · simp only [hassert, and_self, if_true] at hadd
            have ha'' := (Option.some.inj hadd).symm
            refine ⟨hptr, fun h0 => by omega, fun _ => ?_⟩
            rw [ha', ha'']
          · simp [hassert] at hadd
      · simp only [hexcess, if_false] at hstep
        have hpair := Option.some.inj hstep
        have hptr : ptr = s := (congrArg Prod.fst hpair).symm
        have ha' : a' = ⟨rest⟩ := (congrArg Prod.snd hpair).symm
        exact ⟨hptr, fun _ => by rw [ha'], fun hpos => absurd hpos hexcess⟩

/-- Witness for claim C2's amended theorem: the 72-byte region with a
64-byte request (excess 8) is rejected by alloc_from_region. -/
theorem c2_remainder_policy_witness :
    LinkedListAllocator.alloc_from_region (0x8000, 72) 64 8 = none :=
  c2_remainder_policy.1 0x8000 72 64 8 (by decide) (by decide)

/-- Claim C8: over a 1024-byte region at any node-aligned, non-wrapping
base, allocating a 64-byte block (the Layout(64, 8) of the code's own
test), deallocating it, and allocating 64 bytes again returns the same
address both times: the freed block is re-inserted at the head of the
free list and first-fit picks it up again. -/
theorem c8_first_fit_reuse (heapStart : Nat) (hal : heapStart % NODE_ALIGN = 0)
    (hov : heapStart + 1024 < U64) :
    LinkedListAllocator.new.init heapStart 1024 = some ⟨[(heapStart, 1024)]⟩ ∧
    (LinkedListAllocator.mk [(heapStart, 1024)]).alloc 64 8 =
      some (heapStart, ⟨[(heapStart + 64, 960)]⟩) ∧
    (LinkedListAllocator.mk [(heapStart + 64, 960)]).dealloc heapStart 64 =
      some ⟨[(heapStart, 64), (heapStart + 64, 960)]⟩ ∧
    (LinkedListAllocator.mk [(heapStart, 64), (heapStart + 64, 960)]).alloc 64 8 =
      some (heapStart, ⟨[(heapStart + 64, 960)]⟩) := by
  have hal8 : heapStart % 8 = 0 := hal
  have hUeq : U64 = 2 ^ 64 := rfl
  have hs2 : alignUp64 (max 64 MIN_BLOCK_SIZE) NODE_ALIGN = 64 := by decide
  have hno3 : heapStart + 2 ^ 3 - 1 < U64 := by
    simp only [U64] at hov ⊢
    omega
  have hA : alignUp64 heapStart 8 = heapStart := by
    have h := alignUp64_pow (x := heapStart) (k := 3) (by norm_num) hno3
    norm_num at h
    omega
  have hca : checkedAdd heapStart 64 = some (heapStart + 64) := by
    unfold checkedAdd
    rw [if_pos (show heapStart + 64 < U64 by omega)]
  have hafr1 : LinkedListAllocator.alloc_from_region (heapStart, 1024) 64 8 =
      some heapStart := by
    unfold LinkedListAllocator.alloc_from_region
    dsimp only
    rw [hA, hca]
    dsimp only
    rw [if_neg (show ¬ heapStart + 1024 < heapStart + 64 by omega)]
    have hbig : ¬ (0 < heapStart + 1024 - (heapStart + 64) ∧
        heapStart + 1024 - (heapStart + 64) < MIN_BLOCK_SIZE) := by
      rw [show MIN_BLOCK_SIZE = 16 from rfl]
      omega
    rw [if_neg hbig]
  have hafr2 : LinkedListAllocator.alloc_from_region (heapStart, 64) 64 8 =
      some heapStart := by
    unfold LinkedListAllocator.alloc_from_region
    dsimp only
    rw [hA, hca]
    dsimp only
    rw [if_neg (show ¬ heapStart + 64 < heapStart + 64 by omega)]
    have hz : ¬ (0 < heapStart + 64 - (heapStart + 64) ∧
        heapStart + 64 - (heapStart + 64) < MIN_BLOCK_SIZE) := by
      omega
    rw [if_neg hz]
  refine ⟨?_, ?_, ?_, ?_⟩
  · unfold LinkedListAllocator.init LinkedListAllocator.new
      LinkedListAllocator.add_free_region
    rw [if_pos ⟨(by decide : MIN_BLOCK_SIZE ≤ 1024), hal⟩]
  · unfold LinkedListAllocator.alloc
    rw [hs2]
    dsimp only
    have hfr : LinkedListAllocator.find_region 64 8 [(heapStart, 1024)] =
        some ((heapStart, 1024), heapStart, []) := by
      unfold LinkedListAllocator.find_region
      rw [hafr1]
    rw [hfr]
    dsimp only
    rw [hca]
    dsimp only
    rw [if_pos (show 0 < heapStart + 1024 - (heapStart + 64) by omega)]
    rw [show heapStart + 1024 - (heapStart + 64) = 960 by omega]
    unfold LinkedListAllocator.add_free_region
    rw [if_pos ⟨(by decide : MIN_BLOCK_SIZE ≤ 960),
      (show (heapStart + 64) % NODE_ALIGN = 0 by
        show (heapStart + 64) % 8 = 0
        omega)⟩]
  · unfold LinkedListAllocator.dealloc LinkedListAllocator.add_free_region
    rw [hs2]
    rw [if_pos ⟨(by decide : MIN_BLOCK_SIZE ≤ 64), hal⟩]
  · unfold LinkedListAllocator.alloc
    rw [hs2]
    dsimp only
    have hfr2 : LinkedListAllocator.find_region 64 8
        [(heapStart, 64), (heapStart + 64, 960)] =
        some ((heapStart, 64), heapStart, [(heapStart + 64, 960)]) := by
      unfold LinkedListAllocator.find_region
      rw [hafr2]
    rw [hfr2]
    dsimp only
    rw [hca]
    dsimp only
    rw [if_neg (show ¬ 0 < heapStart + 64 - (heapStart + 64) by omega)]

/-- Witness for claim C8 at base 0x8000: both allocations return
0x8000. -/
theorem c8_first_fit_reuse_witness :
    LinkedListAllocator.new.init 0x8000 1024 = some ⟨[(0x8000, 1024)]⟩ ∧
    (LinkedListAllocator.mk [(0x8000, 1024)]).alloc 64 8 =
      some (0x8000, ⟨[(0x8000 + 64, 960)]⟩) ∧
    (LinkedListAllocator.mk [(0x8000 + 64, 960)]).dealloc 0x8000 64 =
      some ⟨[(0x8000, 64), (0x8000 + 64, 960)]⟩ ∧
    (LinkedListAllocator.mk [(0x8000, 64), (0x8000 + 64, 960)]).alloc 64 8 =
      some (0x8000, ⟨[(0x8000 + 64, 960)]⟩) :=
  c8_first_fit_reuse 0x8000 (by decide) (by decide)

/-- Claim C1 (counterexample): for the page-aligned physical address
p = 2 ^ 52, map_page succeeds but stores only the 40-bit address field of
p (which is 0), so translate returns some 0 instead of some (2 ^ 52):
the round trip fails for physical addresses at or above 2 ^ 52. -/
theorem c1_counterexample :
    (PageMapper.map_page (fun _ _ => 0)
      ⟨⟨[0, 0], 16⟩, 0x100000, 16, 0⟩ 0x1000 0 (2 ^ 52) 1).isOk = true ∧
    PageMapper.translate (exceptMemOf (PageMapper.map_page (fun _ _ => 0)
      ⟨⟨[0, 0], 16⟩, 0x100000, 16, 0⟩ 0x1000 0 (2 ^ 52) 1)) 0x1000 0 = some 0 ∧
    ¬ ((0 : Nat) = 2 ^ 52 + 0) := by
  refine ⟨by decide, by decide, by decide⟩

/-- Claim C1 (amended): for every page-aligned virtual address v and
page-aligned physical address p below 2 ^ 52, starting from a well-formed
mapper state where v is unmapped (distinct walked tables, allocator
frames fresh for the walk, frame-aligned and below 2 ^ 52, at least 3
free frames): map_page(v, p, flags, alloc) succeeds for any present
flags without address bits; afterwards translate(v + k) = some (p + k)
for every 0 <= k < PAGE_SIZE; and a subsequent unmap_page(v) succeeds,
returns p, and makes translate(v) = none. -/
theorem c1_map_roundtrip (m : Memory) (fa : FrameAllocator)
    (p4 virt phys flags : Nat)
    (hv : virt % PAGE_SIZE = 0) (hp : phys % PAGE_SIZE = 0)
    (hphysM : phys &&& ADDR_MASK = phys)
    (hflagsM : flags &&& ADDR_MASK = 0) (hfl0 : flags.testBit 0 = true)
    (hwf : fa.bitmap.size ≤ 8 * fa.bitmap.data.length)
    (hfree : 3 ≤ fa.bitmap.countFree)
    (hdisj : ∀ a, canReturn fa a → a ∉ walkTables m p4 virt ∧ a &&& ADDR_MASK = a)
    (hnodup : (walkTables m p4 virt).Nodup)
    (hunmapped : PageMapper.translate m p4 virt = none) :
    (PageMapper.map_page m fa p4 virt phys flags).isOk = true ∧
    (∀ m' fa', PageMapper.map_page m fa p4 virt phys flags = .ok (m', fa') →
      (∀ k, k < PAGE_SIZE →
        PageMapper.translate m' p4 (virt + k) = some (phys + k)) ∧
      ∃ m'' ret, PageMapper.unmap_page m' p4 virt = .ok (m'', ret) ∧
        ret = phys ∧ PageMapper.translate m'' p4 virt = none) := by
  obtain ⟨m', fa', t1, t2, t3, hmp, hwalk⟩ :=
    mapPage_spec m fa p4 virt phys flags hv hp hwf hfree hdisj hnodup hunmapped
  constructor
  · rw [hmp]
    rfl
  · intro m'2 fa'2 h
    rw [hmp] at h
    have hpair := Except.ok.inj h
    have hm : m'2 = m' := (congrArg Prod.fst hpair).symm
    subst hm
    obtain ⟨htrans, hunmap, hnone⟩ :=
      walk_conclusions hwalk hv hphysM hflagsM hfl0
    exact ⟨htrans, writeEntry m'2 t3 (VirtualAddress.pt_index virt) 0, phys,
      hunmap, rfl, hnone⟩

/-- Witness for claim C1's amended theorem: a concrete empty address
space over a 16-frame allocator; after mapping virt 0 to phys 0x5000,
translate resolves offset 5. -/
theorem c1_map_roundtrip_witness :
    PageMapper.translate (exceptMemOf (PageMapper.map_page (fun _ _ => 0)
      ⟨⟨[0, 0], 16⟩, 0x100000, 16, 0⟩ 0x1000 0 0x5000 1)) 0x1000 5 =
      some (0x5000 + 5) := by
  have hwt : walkTables (fun _ _ => 0) 0x1000 0 = [0x1000] := by decide
  have hdisj : ∀ a, canReturn ⟨⟨[0, 0], 16⟩, 0x100000, 16, 0⟩ a →
      a ∉ walkTables (fun _ _ => 0) 0x1000 0 ∧ a &&& ADDR_MASK = a := by
    intro a ha
    obtain ⟨j, hj, ha', _⟩ := ha
    have hj2 : j < 16 := hj
    have ha2 : a = 1048576 + j * 4096 := ha'
    clear hj ha'
    constructor
    · rw [hwt]
      simp only [List.mem_singleton]
      omega
    · apply mask_id
      · omega
      · have h52 : (2 : Nat) ^ 52 = 4503599627370496 := by norm_num
        omega
  have h := c1_map_roundtrip (fun _ _ => 0) ⟨⟨[0, 0], 16⟩, 0x100000, 16, 0⟩
    0x1000 0 0x5000 1 (by decide) (by decide) (by decide) (by decide) (by decide)
    (by decide) (by decide) hdisj (by rw [hwt]; decide) (by decide)
  rcases hres : PageMapper.map_page (fun _ _ => 0)
      ⟨⟨[0, 0], 16⟩, 0x100000, 16, 0⟩ 0x1000 0 0x5000 1 with e | r
  · have h1 := h.1
    rw [hres] at h1
    have h1f : (Except.error e :
        Except MapperError (Memory × FrameAllocator)).isOk = false := rfl
    rw [h1f] at h1
    exact Bool.noConfusion h1
  · have h2 := (h.2 r.1 r.2 (by rw [hres])).1 5 (by decide)
    exact h2

/-- Claim C6: during map_page, a non-present walked parent entry is
filled by get_or_create_table with the fresh frame and exactly the
present and writable flags -- the function takes no caller flags at all
-- while the caller-supplied flags value is written only into the leaf
entry together with phys. -/
theorem c6_intermediate_table_flags :
    (∀ (m : Memory) (fa fa' : FrameAllocator) (parent idx frame : Nat),
      PageTableEntry.is_present (m parent idx) = false →
      fa.allocate_frame = some (frame, fa') →
      frame ≠ parent →
      ∃ m', PageMapper.get_or_create_table m fa parent idx = .ok (m', fa', frame) ∧
        m' parent idx = PageTableEntry.set_address frame
          (PageTableFlags.PRESENT ||| PageTableFlags.WRITABLE)) ∧
    (∀ (m : Memory) (fa : FrameAllocator) (p4 virt phys flags : Nat),
      virt % PAGE_SIZE = 0 → phys % PAGE_SIZE = 0 →
      fa.bitmap.size ≤ 8 * fa.bitmap.data.length →
      3 ≤ fa.bitmap.countFree →
      (∀ a, canReturn fa a → a ∉ walkTables m p4 virt ∧ a &&& ADDR_MASK = a) →
      (walkTables m p4 virt).Nodup →
      PageMapper.translate m p4 virt = none →
      ∀ m' fa', PageMapper.map_page m fa p4 virt phys flags = .ok (m', fa') →
        m' (walkLevel3 m' p4 virt) (VirtualAddress.pt_index virt) =
          PageTableEntry.set_address phys flags) := by
  constructor
  · intro m fa fa' parent idx frame hnp halloc hne
    refine ⟨zeroTable (writeEntry m parent idx
        (PageTableEntry.set_address frame
          (PageTableFlags.PRESENT ||| PageTableFlags.WRITABLE))) frame, ?_, ?_⟩
    · unfold PageMapper.get_or_create_table
      rw [if_neg (by simp [hnp])]
      rw [halloc]
    · rw [zeroTable_ne _ _ _ _ (Ne.symm hne), writeEntry_same]
  · intro m fa p4 virt phys flags hv hp hwf hfree hdisj hnodup hunmapped
      m'2 fa'2 h
    obtain ⟨m', fa', t1, t2, t3, hmp, hwalk⟩ :=
      mapPage_spec m fa p4 virt phys flags hv hp hwf hfree hdisj hnodup hunmapped
    rw [hmp] at h
    have hpair := Except.ok.inj h
    have hm : m'2 = m' := (congrArg Prod.fst hpair).symm
    subst hm
    obtain ⟨h1, h2, h3, h4, h5, h6, h7, -, -, -⟩ := hwalk
    unfold walkLevel3 walkLevel2 walkLevel1
    rw [h2, h4, h6]
    exact h7

/-- Witness for claim C6: on the all-zero memory, creating the table for
a non-present entry writes the fresh frame with exactly present plus
writable into the parent entry. -/
theorem c6_intermediate_table_flags_witness :
    (PageMapper.get_or_create_table (fun _ _ => 0)
        ⟨⟨[0, 0], 16⟩, 0x100000, 16, 0⟩ 0x1000 0).toOption.map
      (fun r => r.1 0x1000 0) =
      some (PageTableEntry.set_address 0x100000
        (PageTableFlags.PRESENT ||| PageTableFlags.WRITABLE)) := by
  obtain ⟨m', hg, hval⟩ := c6_intermediate_table_flags.1 (fun _ _ => 0)
    ⟨⟨[0, 0], 16⟩, 0x100000, 16, 0⟩ ⟨⟨[1, 0], 16⟩, 0x100000, 16, 1⟩ 0x1000 0 0x100000
    (by decide) (by decide) (by decide)
  rw [hg]
  exact congrArg some hval
